import Mathlib

/-!
# Kernel page-table dump (`arch/arm/mm/dump.c`)

A shallow embedding of the run recorder `note_page`, the attribute decoder
`dump_prot`, the walker (`walk_pte`, `walk_pmd`, `walk_pud`, `walk_pgd`) and the entry
points `cma_walk_pgd` and `ptdump_show`, followed by theorems about them.

Conventions of the embedding:

* `unsigned long` is 32 bits wide on this architecture. Addresses and counters are
  natural numbers; subtraction and addition of `unsigned long` values are reduced
  modulo `2 ^ 32` (`ulong_sub`, `ulong_add`).
* Every `seq_printf` call is one `Out` token; `Out.render` gives its text.
* The global arrays `address_markers` and `pg_level` and the global variables
  `cma_virt_start`, `cma_virt_end`, `cache_type`, `buffer_type`, `temp_flag` live in
  `Globals`. An array read outside the array makes the function return `none`.
* Constants that come from kernel headers are fields of `Consts`.
* The page tables are a tree (`pgd_t`, `pud_t`, `pmd_t`) that records for every entry
  its value, the results of the classification macros and the table it refers to.
-/

namespace Dump

/-! ## Machine arithmetic -/

/-- Number of values of an `unsigned long` (32 bits). -/
def ULONG_MOD : Nat := 2 ^ 32

/-- Subtraction `a - b` of two `unsigned long` values, wrapping modulo `2 ^ 32`. -/
def ulong_sub (a b : Nat) : Nat :=
  (a % ULONG_MOD + (ULONG_MOD - b % ULONG_MOD)) % ULONG_MOD

/-- Addition `a + b` of two `unsigned long` values, wrapping modulo `2 ^ 32`. -/
def ulong_add (a b : Nat) : Nat :=
  (a + b) % ULONG_MOD

/-! ## Data model -/

/-- The C `struct addr_marker`; a `NULL` name is `none`. -/
structure addr_marker where
  start_address : Nat
  name : Option String
  deriving DecidableEq, Repr

/-- The C `struct prot_bits`; a label that is not initialised is `NULL`, here `none`. -/
structure prot_bits where
  mask : Nat
  val : Nat
  set : Option String
  clear : Option String
  deriving DecidableEq, Repr

/-- The C `struct pg_level`. The pointer `bits` is `none` when `NULL`; `num` is the
length of the list. -/
structure pg_level where
  bits : Option (List prot_bits)
  mask : Nat
  deriving DecidableEq, Repr

/-- The C `struct pg_state` without the output stream: `marker` is the index of
`st->marker` in `address_markers`. -/
structure pg_state where
  marker : Nat
  start_address : Nat
  level : Nat
  current_prot : Nat
  deriving DecidableEq, Repr

/-- Constants of the kernel headers that `dump.c` uses. -/
structure Consts where
  USER_PGTABLES_CEILING : Nat
  L_PTE_USER : Nat
  L_PTE_RDONLY : Nat
  L_PTE_XN : Nat
  L_PTE_SHARED : Nat
  L_PTE_MT_MASK : Nat
  L_PTE_MT_UNCACHED : Nat
  L_PTE_MT_BUFFERABLE : Nat
  L_PTE_MT_WRITETHROUGH : Nat
  L_PTE_MT_WRITEBACK : Nat
  L_PTE_MT_MINICACHE : Nat
  L_PTE_MT_WRITEALLOC : Nat
  L_PTE_MT_DEV_SHARED : Nat
  L_PTE_MT_DEV_NONSHARED : Nat
  L_PTE_MT_DEV_WC : Nat
  L_PTE_MT_DEV_CACHED : Nat
  PMD_SECT_AP_READ : Nat
  PMD_SECT_AP_WRITE : Nat
  PMD_SECT_XN : Nat
  PMD_SECT_S : Nat
  MODULES_VADDR : Nat
  PAGE_OFFSET : Nat
  VMALLOC_START : Nat
  VMALLOC_END : Nat
  FIXADDR_START : Nat
  CONFIG_VECTORS_BASE : Nat
  PAGE_SIZE : Nat
  PMD_SIZE : Nat
  PUD_SIZE : Nat
  PGDIR_SIZE : Nat
  PTRS_PER_PTE : Nat
  PTRS_PER_PMD : Nat
  PTRS_PER_PUD : Nat
  PTRS_PER_PGD : Nat
  deriving DecidableEq, Repr

/-- The global variables of `dump.c`. -/
structure Globals where
  address_markers : List addr_marker
  pg_level : List pg_level
  cma_virt_start : Nat
  cma_virt_end : Nat
  cache_type : Nat
  buffer_type : Nat
  temp_flag : Int
  deriving DecidableEq, Repr

/-- One `seq_printf` call. -/
inductive Out where
  /-- The call `seq_printf(seq, "---[ %s ]---\n", name)`. -/
  | header (name : Option String)
  /-- The call `seq_printf(seq, "0x%08lx-0x%08lx   ", start_address, addr)`. -/
  | range (start_address addr : Nat)
  /-- The call `seq_printf(seq, "%9lu%c", delta, *unit)`. -/
  | size (delta : Nat) (unit : Char)
  /-- The call `seq_printf(seq, " %s", s)` of `dump_prot`. -/
  | prot (s : String)
  /-- The call `seq_printf(seq, "\n")`. -/
  | newline
  /-- The call `seq_printf(m, "Cacheable:\t\t\t\t%lu kB\n", kb)`. -/
  | cacheable (kb : Nat)
  /-- The call `seq_printf(m, "Bufferable:\t\t\t\t%lu kB\n", kb)`. -/
  | bufferable (kb : Nat)
  deriving DecidableEq, Repr

/-! ## Text of the output -/

/-- Pads a list of characters on the left up to `width`. -/
def pad_left (fill : Char) (width : Nat) (cs : List Char) : List Char :=
  List.replicate (width - cs.length) fill ++ cs

/-- The conversion `%08lx`. -/
def fmt_08lx (n : Nat) : String :=
  String.mk (pad_left '0' 8 (Nat.toDigits 16 (n % ULONG_MOD)))

/-- The conversion `%9lu`. -/
def fmt_9lu (n : Nat) : String :=
  String.mk (pad_left ' ' 9 (Nat.toDigits 10 (n % ULONG_MOD)))

/-- The conversion `%lu`. -/
def fmt_lu (n : Nat) : String :=
  String.mk (Nat.toDigits 10 (n % ULONG_MOD))

/-- The conversion `%s`; the kernel prints a `NULL` string as `(null)`. -/
def fmt_s (s : Option String) : String :=
  match s with
  | some t => t
  | none => "(null)"

/-- Text written by one `seq_printf` call. -/
def Out.render : Out → String
  | .header name => "---[ " ++ fmt_s name ++ " ]---\n"
  | .range s a => "0x" ++ fmt_08lx s ++ "-0x" ++ fmt_08lx a ++ "   "
  | .size d u => fmt_9lu d ++ String.singleton u
  | .prot s => " " ++ s
  | .newline => "\n"
  | .cacheable kb => "Cacheable:\t\t\t\t" ++ fmt_lu kb ++ " kB\n"
  | .bufferable kb => "Bufferable:\t\t\t\t" ++ fmt_lu kb ++ " kB\n"

/-- Text written by a sequence of `seq_printf` calls. -/
def render_all (out : List Out) : String :=
  String.join (out.map Out.render)

/-! ## Static tables -/

/-- The array `address_markers` as initialised statically (entry 2 is patched by
`ptdump_init`); `-1` is the largest `unsigned long`. -/
def address_markers (c : Consts) : List addr_marker :=
  [ { start_address := c.MODULES_VADDR, name := some "Modules" },
    { start_address := c.PAGE_OFFSET, name := some "Kernel Mapping" },
    { start_address := 0, name := some "vmalloc() Area" },
    { start_address := c.VMALLOC_END, name := some "vmalloc() End" },
    { start_address := c.FIXADDR_START, name := some "Fixmap Area" },
    { start_address := c.CONFIG_VECTORS_BASE, name := some "Vectors" },
    { start_address := ulong_add c.CONFIG_VECTORS_BASE (c.PAGE_SIZE * 2),
      name := some "Vectors End" },
    { start_address := ULONG_MOD - 1, name := none } ]

/-- The array `pte_bits`. -/
def pte_bits (c : Consts) : List prot_bits :=
  [ { mask := c.L_PTE_USER, val := c.L_PTE_USER, set := some "USR", clear := some "   " },
    { mask := c.L_PTE_RDONLY, val := c.L_PTE_RDONLY, set := some "ro", clear := some "RW" },
    { mask := c.L_PTE_XN, val := c.L_PTE_XN, set := some "NX", clear := some "x " },
    { mask := c.L_PTE_SHARED, val := c.L_PTE_SHARED, set := some "SHD", clear := some "   " },
    { mask := c.L_PTE_MT_MASK, val := c.L_PTE_MT_UNCACHED,
      set := some "SO/UNCACHED", clear := none },
    { mask := c.L_PTE_MT_MASK, val := c.L_PTE_MT_BUFFERABLE,
      set := some "MEM/BUFFERABLE/WC", clear := none },
    { mask := c.L_PTE_MT_MASK, val := c.L_PTE_MT_WRITETHROUGH,
      set := some "MEM/CACHED/WT", clear := none },
    { mask := c.L_PTE_MT_MASK, val := c.L_PTE_MT_WRITEBACK,
      set := some "MEM/CACHED/WBRA", clear := none },
    { mask := c.L_PTE_MT_MASK, val := c.L_PTE_MT_MINICACHE,
      set := some "MEM/MINICACHE", clear := none },
    { mask := c.L_PTE_MT_MASK, val := c.L_PTE_MT_WRITEALLOC,
      set := some "MEM/CACHED/WBWA", clear := none },
    { mask := c.L_PTE_MT_MASK, val := c.L_PTE_MT_DEV_SHARED,
      set := some "DEV/SHARED", clear := none },
    { mask := c.L_PTE_MT_MASK, val := c.L_PTE_MT_DEV_NONSHARED,
      set := some "DEV/NONSHARED", clear := none },
    { mask := c.L_PTE_MT_MASK, val := c.L_PTE_MT_DEV_WC,
      set := some "DEV/WC", clear := none },
    { mask := c.L_PTE_MT_MASK, val := c.L_PTE_MT_DEV_CACHED,
      set := some "DEV/CACHED", clear := none } ]

/-- The array `section_bits`. -/
def section_bits (c : Consts) : List prot_bits :=
  [ { mask := c.PMD_SECT_AP_READ ||| c.PMD_SECT_AP_WRITE, val := 0,
      set := some "    ro", clear := none },
    { mask := c.PMD_SECT_AP_READ ||| c.PMD_SECT_AP_WRITE, val := c.PMD_SECT_AP_WRITE,
      set := some "    RW", clear := none },
    { mask := c.PMD_SECT_AP_READ ||| c.PMD_SECT_AP_WRITE, val := c.PMD_SECT_AP_READ,
      set := some "USR RO", clear := none },
    { mask := c.PMD_SECT_AP_READ ||| c.PMD_SECT_AP_WRITE,
      val := c.PMD_SECT_AP_READ ||| c.PMD_SECT_AP_WRITE,
      set := some "USR RW", clear := none },
    { mask := c.PMD_SECT_XN, val := c.PMD_SECT_XN, set := some "NX", clear := some "x " },
    { mask := c.PMD_SECT_S, val := c.PMD_SECT_S, set := some "SHD", clear := some "   " } ]

/-- The array `pg_level` as initialised statically: every `mask` is zero. -/
def pg_level_static (c : Consts) : List pg_level :=
  [ { bits := none, mask := 0 },
    { bits := none, mask := 0 },
    { bits := none, mask := 0 },
    { bits := some (section_bits c), mask := 0 },
    { bits := some (pte_bits c), mask := 0 } ]

/-- The inner loop of `ptdump_init`: `pg_level[i].mask |= pg_level[i].bits[j].mask`
for every `j`. -/
def init_mask (mask : Nat) (bits : List prot_bits) : Nat :=
  bits.foldl (fun m b => m ||| b.mask) mask

/-- The outer loop of `ptdump_init` on one entry of `pg_level`. -/
def init_level (l : pg_level) : pg_level :=
  match l.bits with
  | some bits => { l with mask := init_mask l.mask bits }
  | none => l

/-- The effect of `ptdump_init` on the global arrays: the masks are computed and
`address_markers[2].start_address = VMALLOC_START`. -/
def ptdump_init (c : Consts) (g : Globals) : Globals :=
  { g with
    pg_level := g.pg_level.map init_level
    address_markers :=
      match g.address_markers[2]? with
      | some m => g.address_markers.set 2 { m with start_address := c.VMALLOC_START }
      | none => g.address_markers }

/-- The global variables at load time, before `ptdump_init`. -/
def globals_static (c : Consts) : Globals :=
  { address_markers := address_markers c
    pg_level := pg_level_static c
    cma_virt_start := 0
    cma_virt_end := 0
    cache_type := 0
    buffer_type := 0
    temp_flag := 1 }

/-- The function `cma_range_populate`. -/
def cma_range_populate (g : Globals) (virt_start virt_end : Nat) : Globals :=
  { g with cma_virt_start := virt_start, cma_virt_end := virt_end }

/-! ## The attribute decoder -/

/-- The label `s` chosen in one iteration of the loop of `dump_prot`. -/
def chosen_label (current_prot : Nat) (b : prot_bits) : Option String :=
  if current_prot &&& b.mask = b.val then b.set else b.clear

/-- One iteration of the loop of `dump_prot`. -/
def dump_prot_step (c : Consts) (st : pg_state) (addr : Nat)
    (acc : Globals × List Out) (b : prot_bits) : Globals × List Out :=
  let g := acc.1
  match chosen_label st.current_prot b with
  | none => acc
  | some s =>
    let out := if g.temp_flag ≠ 0 then acc.2 ++ [Out.prot s] else acc.2
    if st.start_address ≥ g.cma_virt_start ∧ st.start_address < g.cma_virt_end ∧
        addr > g.cma_virt_start ∧ addr ≤ g.cma_virt_end then
      let g1 :=
        if b.val = c.L_PTE_MT_WRITETHROUGH ∨ b.val = c.L_PTE_MT_WRITEBACK ∨
            b.val = c.L_PTE_MT_MINICACHE ∨ b.val = c.L_PTE_MT_DEV_CACHED ∨
            b.val = c.L_PTE_MT_WRITEALLOC then
          { g with cache_type := ulong_add g.cache_type (ulong_sub addr st.start_address) }
        else g
      let g2 :=
        if b.val = c.L_PTE_MT_BUFFERABLE then
          { g1 with buffer_type := ulong_add g1.buffer_type (ulong_sub addr st.start_address) }
        else g1
      (g2, out)
    else (g, out)

/-- The function `dump_prot`: the globals afterwards and the tokens printed. -/
def dump_prot (c : Consts) (g : Globals) (st : pg_state) (bits : List prot_bits)
    (addr : Nat) : Globals × List Out :=
  bits.foldl (dump_prot_step c st addr) (g, [])

/-! ## The run recorder -/

/-- The string `units` of `note_page`, without its terminating zero. -/
def units : List Char := ['K', 'M', 'G', 'T', 'P', 'E']

/-- The loop `while (!(delta & 1023) && unit[1]) { delta >>= 10; unit++; }`. The
pointer `unit` is the remaining suffix of `units`: `*unit` is its head and `unit[1]`
is non-zero when a second character follows. -/
def unit_loop (delta : Nat) : List Char → Nat × List Char
  | u :: u1 :: rest =>
    if delta &&& 1023 = 0 then unit_loop (delta >>> 10) (u1 :: rest)
    else (delta, u :: u1 :: rest)
  | unit => (delta, unit)

/-- The character `*unit`. -/
def unit_char (unit : List Char) : Char :=
  unit.headD (Char.ofNat 0)

/-- The guarded call `if (temp_flag != 0) seq_printf(...)`. -/
def print_if (g : Globals) (o : Out) : List Out :=
  if g.temp_flag ≠ 0 then [o] else []

/-- The statement `if (pg_level[st->level].bits) dump_prot(st, pg_level[st->level].bits,
pg_level[st->level].num, addr)` for the entry `sl = pg_level[st->level]`. -/
def call_dump_prot (c : Consts) (g : Globals) (st : pg_state) (sl : pg_level)
    (addr : Nat) : Globals × List Out :=
  match sl.bits with
  | some bits => dump_prot c g st bits addr
  | none => (g, [])

/-- The block `if (st->current_prot) { ... }` of `note_page`, which prints the line
of the run that is being closed and calls `dump_prot`. -/
def close_line (c : Consts) (g : Globals) (st : pg_state) (addr : Nat) :
    Option (Globals × List Out) :=
  if st.current_prot ≠ 0 then
    let out1 := print_if g (Out.range st.start_address addr)
    let r := unit_loop (ulong_sub addr st.start_address >>> 10) units
    let out2 := print_if g (Out.size r.1 (unit_char r.2))
    match g.pg_level[st.level]? with
    | none => none
    | some sl =>
      let d := call_dump_prot c g st sl addr
      some (d.1, out1 ++ out2 ++ d.2 ++ print_if d.1 Out.newline)
  else
    some (g, [])

/-- The function `note_page`: the globals and walk state afterwards and the tokens
printed, or `none` when an array is read outside its bounds.

In the branch for an open run `st->marker[1]` is read on every path (in the
condition when the first two disjuncts are false, and in the body otherwise), so
it is read once at the start of that branch. -/
def note_page (c : Consts) (g : Globals) (st : pg_state) (addr level val : Nat) :
    Option (Globals × pg_state × List Out) :=
  match g.pg_level[level]? with
  | none => none
  | some pl =>
    let prot := val &&& pl.mask
    if addr < c.USER_PGTABLES_CEILING then
      some (g, st, [])
    else if st.level = 0 then
      let st1 := { st with level := level, current_prot := prot }
      if g.temp_flag ≠ 0 then
        match g.address_markers[st.marker]? with
        | none => none
        | some m => some (g, st1, [Out.header m.name])
      else
        some (g, st1, [])
    else
      match g.address_markers[st.marker + 1]? with
      | none => none
      | some m1 =>
        if prot ≠ st.current_prot ∨ level ≠ st.level ∨ addr ≥ m1.start_address then
          match close_line c g st addr with
          | none => none
          | some (g1, line) =>
            if addr ≥ m1.start_address then
              some (g1, { marker := st.marker + 1, start_address := addr,
                          current_prot := prot, level := level },
                    line ++ print_if g1 (Out.header m1.name))
            else
              some (g1, { st with start_address := addr, current_prot := prot,
                                  level := level }, line)
        else
          some (g, st, [])

/-- One argument triple of a `note_page` call. -/
structure Call where
  addr : Nat
  level : Nat
  val : Nat
  deriving DecidableEq, Repr

/-- A sequence of `note_page` calls on the same walk state, in order. -/
def note_pages (c : Consts) (g : Globals) (st : pg_state) :
    List Call → Option (Globals × pg_state × List Out)
  | [] => some (g, st, [])
  | k :: ks =>
    match note_page c g st k.addr k.level k.val with
    | none => none
    | some (g1, st1, out1) =>
      match note_pages c g1 st1 ks with
      | none => none
      | some (g2, st2, out2) => some (g2, st2, out1 ++ out2)

/-- The walk state at the start of `walk_pgd`: `memset(&st, 0, sizeof(st))` and
`st.marker = address_markers`. -/
def pg_state_init : pg_state :=
  { marker := 0, start_address := 0, level := 0, current_prot := 0 }

/-- The globals at the start of the loop of `walk_pgd`: `cache_type = 0` and
`buffer_type = 0`. -/
def walk_pgd_init (g : Globals) : Globals :=
  { g with cache_type := 0, buffer_type := 0 }

/-! ## The page tables and the walker

The walker never inspects the walk state: `walk_pte`, `walk_pmd`, `walk_pud` and the
loop of `walk_pgd` only pass `st` on to `note_page`. They are embedded as the list of
the `note_page` calls they make, in order; `walk_pgd` then runs these calls on the
fresh walk state. A read outside a table makes the walk return `none`. -/

/-- An entry of a middle table: `pmd_val(*pmd)`, the results of `pmd_none`,
`pmd_large` and `pmd_present` on it, and the values `pte_val` of the entries of the
table that `pte_offset_kernel(pmd, 0)` points to. -/
structure pmd_t where
  val : Nat
  is_none : Bool
  large : Bool
  present : Bool
  ptes : List Nat
  deriving DecidableEq, Repr

/-- An entry of an upper table: `pud_val(*pud)`, the result of `pud_none` on it, and
the table that `pmd_offset(pud, 0)` points to. -/
structure pud_t where
  val : Nat
  is_none : Bool
  pmds : List pmd_t
  deriving DecidableEq, Repr

/-- An entry of the root table: `pgd_val(*pgd)`, the result of `pgd_none` on it, and
the table that `pud_offset(pgd, 0)` points to. -/
structure pgd_t where
  val : Nat
  is_none : Bool
  puds : List pud_t
  deriving DecidableEq, Repr

/-- The constant `SZ_1K` of `linux/sizes.h`. -/
def SZ_1K : Nat := 0x400

/-- A counting loop `for (i = first; i < first + n; i++)` whose body makes the calls
`body i`; the calls of the iterations are made in order. -/
def for_calls (body : Nat → Option (List Call)) : Nat → Nat → Option (List Call)
  | _, 0 => some []
  | i, n + 1 =>
    match body i with
    | none => none
    | some cs =>
      match for_calls body (i + 1) n with
      | none => none
      | some rest => some (cs ++ rest)

/-- The body of the loop of `walk_pte` for index `i`: `pte` points to entry `i`. -/
def pte_slot (c : Consts) (pmd : pmd_t) (start i : Nat) : Option (List Call) :=
  match pmd.ptes[i]? with
  | none => none
  | some pte =>
    some [{ addr := ulong_add start (i * c.PAGE_SIZE), level := 4, val := pte }]

/-- The function `walk_pte`. -/
def walk_pte (c : Consts) (pmd : pmd_t) (start : Nat) : Option (List Call) :=
  for_calls (pte_slot c pmd start) 0 c.PTRS_PER_PTE

/-- The body of the loop of `walk_pmd` for index `i`: `pmd` points to entry `i`. -/
def pmd_slot (c : Consts) (pud : pud_t) (start i : Nat) : Option (List Call) :=
  match pud.pmds[i]? with
  | none => none
  | some pmd =>
    let addr := ulong_add start (i * c.PMD_SIZE)
    if pmd.is_none || pmd.large || !pmd.present then
      some [{ addr := addr, level := 3, val := pmd.val }]
    else
      walk_pte c pmd addr

/-- The function `walk_pmd`. -/
def walk_pmd (c : Consts) (pud : pud_t) (start : Nat) : Option (List Call) :=
  for_calls (pmd_slot c pud start) 0 c.PTRS_PER_PMD

/-- The body of the loop of `walk_pud` for index `i`: `pud` points to entry `i`. -/
def pud_slot (c : Consts) (pgd : pgd_t) (start i : Nat) : Option (List Call) :=
  match pgd.puds[i]? with
  | none => none
  | some pud =>
    let addr := ulong_add start (i * c.PUD_SIZE)
    if !pud.is_none then
      walk_pmd c pud addr
    else
      some [{ addr := addr, level := 2, val := pud.val }]

/-- The function `walk_pud`. -/
def walk_pud (c : Consts) (pgd : pgd_t) (start : Nat) : Option (List Call) :=
  for_calls (pud_slot c pgd start) 0 c.PTRS_PER_PUD

/-- The body of the loop of `walk_pgd` for the value `i` of the counter. The counter
starts at `USER_PGTABLES_CEILING / PGDIR_SIZE` while `pgd` starts at `swapper_pg_dir`
and both are incremented together, so `pgd` points to entry
`i - USER_PGTABLES_CEILING / PGDIR_SIZE`. -/
def pgd_slot (c : Consts) (swapper_pg_dir : List pgd_t) (i : Nat) : Option (List Call) :=
  match swapper_pg_dir[i - c.USER_PGTABLES_CEILING / c.PGDIR_SIZE]? with
  | none => none
  | some pgd =>
    let addr := (i * c.PGDIR_SIZE) % ULONG_MOD
    if !pgd.is_none then
      walk_pud c pgd addr
    else
      some [{ addr := addr, level := 1, val := pgd.val }]

/-- The calls made by the loop of `walk_pgd`. -/
def walk_pgd_loop (c : Consts) (swapper_pg_dir : List pgd_t) : Option (List Call) :=
  for_calls (pgd_slot c swapper_pg_dir) (c.USER_PGTABLES_CEILING / c.PGDIR_SIZE)
    (c.PTRS_PER_PGD - c.USER_PGTABLES_CEILING / c.PGDIR_SIZE)

/-- The function `walk_pgd`: the fresh walk state, the reset of the counters, the
calls of the loop and the final call `note_page(&st, 0, 0, 0)`. -/
def walk_pgd (c : Consts) (g : Globals) (swapper_pg_dir : List pgd_t) :
    Option (Globals × pg_state × List Out) :=
  match walk_pgd_loop c swapper_pg_dir with
  | none => none
  | some calls =>
    note_pages c (walk_pgd_init g) pg_state_init
      (calls ++ [{ addr := 0, level := 0, val := 0 }])

/-- The function `cma_walk_pgd`: the globals afterwards and the text written. -/
def cma_walk_pgd (c : Consts) (g : Globals) (swapper_pg_dir : List pgd_t) :
    Option (Globals × List Out) :=
  match walk_pgd c { g with temp_flag := 0 } swapper_pg_dir with
  | none => none
  | some (g1, _, out) =>
    some (g1, out ++ [Out.cacheable (g1.cache_type / SZ_1K),
                      Out.bufferable (g1.buffer_type / SZ_1K)])

/-- The function `ptdump_show`: the globals afterwards and the text written. -/
def ptdump_show (c : Consts) (g : Globals) (swapper_pg_dir : List pgd_t) :
    Option (Globals × List Out) :=
  match walk_pgd c { g with temp_flag := 1 } swapper_pg_dir with
  | none => none
  | some (g1, _, out) => some (g1, out)

/-! ## Closed runs and totals -/

/-- A run at the moment `note_page` closes it: the values of `st->start_address`,
`addr`, `st->level` and `st->current_prot` with which the block guarded by
`if (st->current_prot)` is entered. -/
structure Run where
  start_address : Nat
  end_address : Nat
  level : Nat
  prot : Nat
  deriving DecidableEq, Repr

/-- The run with non-zero attributes that a call of `note_page` closes, if it closes
one: the call is at or above the ceiling, a run is open, and the close condition of
`note_page` holds. -/
def closed_run (c : Consts) (g : Globals) (st : pg_state) (k : Call) : Option Run :=
  match g.pg_level[k.level]?, g.address_markers[st.marker + 1]? with
  | some pl, some m1 =>
    if c.USER_PGTABLES_CEILING ≤ k.addr ∧ st.level ≠ 0 ∧ st.current_prot ≠ 0 ∧
        (k.val &&& pl.mask ≠ st.current_prot ∨ k.level ≠ st.level ∨
          k.addr ≥ m1.start_address) then
      some { start_address := st.start_address, end_address := k.addr,
             level := st.level, prot := st.current_prot }
    else none
  | _, _ => none

/-- The runs with non-zero attributes closed by a sequence of `note_page` calls, in
order. -/
def closed_runs (c : Consts) (g : Globals) (st : pg_state) : List Call → List Run
  | [] => []
  | k :: ks =>
    match note_page c g st k.addr k.level k.val with
    | none => []
    | some (g1, st1, _) => (closed_run c g st k).toList ++ closed_runs c g1 st1 ks

/-- The decoder table of the level of a run (empty when the level has none). -/
def Run.bits (levels : List pg_level) (r : Run) : List prot_bits :=
  match levels[r.level]? with
  | some sl => sl.bits.getD []
  | none => []

/-- The window test of `dump_prot` on a run: start and end both lie in the window,
`virt_start <= start < virt_end` and `virt_start < end <= virt_end`. -/
def Run.inside (virt_start virt_end : Nat) (r : Run) : Bool :=
  decide (r.start_address ≥ virt_start ∧ r.start_address < virt_end ∧
    r.end_address > virt_start ∧ r.end_address ≤ virt_end)

/-- The values of `bits->val` for which `dump_prot` adds to `cache_type`. -/
def cache_val (c : Consts) (v : Nat) : Bool :=
  decide (v = c.L_PTE_MT_WRITETHROUGH ∨ v = c.L_PTE_MT_WRITEBACK ∨
    v = c.L_PTE_MT_MINICACHE ∨ v = c.L_PTE_MT_DEV_CACHED ∨ v = c.L_PTE_MT_WRITEALLOC)

/-- The value of `bits->val` for which `dump_prot` adds to `buffer_type`. -/
def buffer_val (c : Consts) (v : Nat) : Bool :=
  decide (v = c.L_PTE_MT_BUFFERABLE)

/-- Number of table entries whose chosen label is present and whose `val` is selected
by `sel`. -/
def hits (sel : Nat → Bool) (prot : Nat) (bits : List prot_bits) : Nat :=
  (bits.filter (fun b => (chosen_label prot b).isSome && sel b.val)).length

/-- Sum over the runs inside the window of the full length of the run, once for each
table entry of the level of the run that is counted by `sel`. -/
def inside_total (sel : Nat → Bool) (levels : List pg_level) (virt_start virt_end : Nat)
    (runs : List Run) : Nat :=
  ((runs.filter (Run.inside virt_start virt_end)).map
    (fun r => hits sel r.prot (r.bits levels) *
      ulong_sub r.end_address r.start_address)).sum

/-- The runs whose range intersects the window `[virt_start, virt_end)`. -/
def Run.intersects (virt_start virt_end : Nat) (r : Run) : Bool :=
  decide (r.start_address < virt_end ∧ virt_start < r.end_address)

/-- The total of the clipped overlaps: the sum, over the runs of the class selected by
`sel` whose range intersects the window, of
`min(end, virt_end) - max(start, virt_start)`. -/
def clipped_total (sel : Nat → Bool) (levels : List pg_level) (virt_start virt_end : Nat)
    (runs : List Run) : Nat :=
  ((runs.filter (fun r => decide (0 < hits sel r.prot (r.bits levels)) &&
      Run.intersects virt_start virt_end r)).map
    (fun r => min r.end_address virt_end - max r.start_address virt_start)).sum

/-- The memory-type values of `pte_bits`, in table order. -/
def mt_values (c : Consts) : List Nat :=
  [c.L_PTE_MT_UNCACHED, c.L_PTE_MT_BUFFERABLE, c.L_PTE_MT_WRITETHROUGH,
   c.L_PTE_MT_WRITEBACK, c.L_PTE_MT_MINICACHE, c.L_PTE_MT_WRITEALLOC,
   c.L_PTE_MT_DEV_SHARED, c.L_PTE_MT_DEV_NONSHARED, c.L_PTE_MT_DEV_WC,
   c.L_PTE_MT_DEV_CACHED]

/-- The flag-bit values of `pte_bits`, in table order. -/
def flag_values (c : Consts) : List Nat :=
  [c.L_PTE_USER, c.L_PTE_RDONLY, c.L_PTE_XN, c.L_PTE_SHARED]

/-! ## Example configuration -/

/-- The header constants for a classic two-level ARM configuration with the 3G/1G
split (`asm/pgtable-2level.h`, `asm/pgtable-2level-hwdef.h`, `asm/memory.h`). The
headers are not part of this file; `USER_PGTABLES_CEILING` is left as an argument
(it is `0` unless the architecture overrides it). -/
def arm_consts (ceiling : Nat) : Consts :=
  { USER_PGTABLES_CEILING := ceiling
    L_PTE_USER := 0x100
    L_PTE_RDONLY := 0x80
    L_PTE_XN := 0x200
    L_PTE_SHARED := 0x400
    L_PTE_MT_MASK := 0x3c
    L_PTE_MT_UNCACHED := 0x00
    L_PTE_MT_BUFFERABLE := 0x04
    L_PTE_MT_WRITETHROUGH := 0x08
    L_PTE_MT_WRITEBACK := 0x0c
    L_PTE_MT_MINICACHE := 0x18
    L_PTE_MT_WRITEALLOC := 0x1c
    L_PTE_MT_DEV_SHARED := 0x10
    L_PTE_MT_DEV_NONSHARED := 0x30
    L_PTE_MT_DEV_WC := 0x24
    L_PTE_MT_DEV_CACHED := 0x2c
    PMD_SECT_AP_READ := 0x800
    PMD_SECT_AP_WRITE := 0x400
    PMD_SECT_XN := 0x10
    PMD_SECT_S := 0x10000
    MODULES_VADDR := 0xbf000000
    PAGE_OFFSET := 0xc0000000
    VMALLOC_START := 0xe0800000
    VMALLOC_END := 0xff000000
    FIXADDR_START := 0xfff00000
    CONFIG_VECTORS_BASE := 0xffff0000
    PAGE_SIZE := 0x1000
    PMD_SIZE := 0x200000
    PUD_SIZE := 0x200000
    PGDIR_SIZE := 0x200000
    PTRS_PER_PTE := 512
    PTRS_PER_PMD := 1
    PTRS_PER_PUD := 1
    PTRS_PER_PGD := 2048 }

/-- The globals after `ptdump_init` for `arm_consts`, with the given `temp_flag` and
window `[virt_start, virt_end)` set by `cma_range_populate`. -/
def arm_globals (ceiling : Nat) (temp_flag : Int) (virt_start virt_end : Nat) : Globals :=
  { cma_range_populate (ptdump_init (arm_consts ceiling) (globals_static (arm_consts ceiling)))
      virt_start virt_end with temp_flag := temp_flag }

/-- The entry `pg_level[4]` after `ptdump_init` for `arm_consts`: the mask is the
union of the masks of `pte_bits`. -/
def arm_pte_level : pg_level :=
  { bits := some (pte_bits (arm_consts 0)), mask := 0x7bc }

/-- A walk state with an open run: a level 4 run of write-back shared pages that
starts at the first marker of `arm_consts`. -/
def open_run_state : pg_state :=
  { marker := 0, start_address := 0xbf000000, level := 4, current_prot := 0x40c }

/-- The calls have strictly increasing addresses, all in `[lo, hi)`. -/
def calls_within (lo hi : Nat) (cs : List Call) : Prop :=
  cs.Pairwise (fun a b => a.addr < b.addr) ∧ ∀ k ∈ cs, lo ≤ k.addr ∧ k.addr < hi

/-- The geometry of a three-level configuration (`asm/pgtable-3level.h`: four root
entries of 1 GiB, no separate upper level, 512 middle entries of 2 MiB, 512 pages) with
the ceiling `TASK_SIZE = 0xbf000000` that this configuration sets. The attribute
constants, which play no role in the order of the walk, are those of `arm_consts`. -/
def lpae_consts : Consts :=
  { arm_consts 0xbf000000 with
    PMD_SIZE := 0x200000
    PUD_SIZE := 0x40000000
    PGDIR_SIZE := 0x40000000
    PTRS_PER_PTE := 512
    PTRS_PER_PMD := 512
    PTRS_PER_PUD := 1
    PTRS_PER_PGD := 4 }

/-- A small geometry for examples: two root entries of 16 KiB, one upper entry, two
middle entries of 8 KiB, two pages of 4 KiB, and a ceiling of `0`. -/
def small_consts : Consts :=
  { arm_consts 0 with
    PMD_SIZE := 0x2000
    PUD_SIZE := 0x4000
    PGDIR_SIZE := 0x4000
    PTRS_PER_PTE := 2
    PTRS_PER_PMD := 2
    PTRS_PER_PUD := 1
    PTRS_PER_PGD := 2 }

/-- A root table for `small_consts`: the first root entry points to a middle table
whose first entry is a table of two write-back shared pages and whose second entry is
empty; the second root entry is empty. -/
def small_dir : List pgd_t :=
  [ { val := 1, is_none := false,
      puds := [ { val := 1, is_none := false,
                  pmds := [ { val := 1, is_none := false, large := false, present := true,
                              ptes := [0x140f, 0x240f] },
                            { val := 0, is_none := true, large := false, present := false,
                              ptes := [] } ] } ] },
    { val := 0, is_none := true, puds := [] } ]

/-! ## Observations on the output -/

/-- Recognises the token that starts a range line. -/
def Out.is_range : Out → Bool
  | .range _ _ => true
  | _ => false

/-- The range tokens of an output, in order. -/
def range_tokens (out : List Out) : List Out :=
  out.filter Out.is_range

/-! ## Arithmetic lemmas -/

theorem and_1023_eq_mod (d : Nat) : d &&& 1023 = d % 1024 := by
  have h := Nat.and_pow_two_sub_one_eq_mod d 10
  simpa using h

theorem shr_10_eq_div (d : Nat) : d >>> 10 = d / 1024 := by
  rw [Nat.shiftRight_eq_div_pow]

/-- General invariant of the scaling loop started on any non-empty suffix of `units`. -/
theorem unit_loop_spec (u : List Char) : ∀ d : Nat, u ≠ [] →
    (unit_loop d u).2 ≠ [] ∧
    (unit_loop d u).2.length ≤ u.length ∧
    (unit_loop d u).2 = u.drop (u.length - (unit_loop d u).2.length) ∧
    (unit_loop d u).1 * 1024 ^ (u.length - (unit_loop d u).2.length) = d ∧
    ((unit_loop d u).2.length = 1 ∨ ¬ 1024 ∣ (unit_loop d u).1) := by
  induction u with
  | nil => intro d h; exact absurd rfl h
  | cons a t ih =>
    intro d _
    cases t with
    | nil => simp [unit_loop]
    | cons b t2 =>
      by_cases hd : d &&& 1023 = 0
      · have hne : (b :: t2) ≠ [] := by simp
        obtain ⟨h1, h2, h3, h4, h5⟩ := ih (d >>> 10) hne
        have hstep : unit_loop d (a :: b :: t2) = unit_loop (d >>> 10) (b :: t2) := by
          simp [unit_loop, hd]
        rw [hstep]
        have hmod : d % 1024 = 0 := by rw [← and_1023_eq_mod]; exact hd
        have hlen : (a :: b :: t2).length = (b :: t2).length + 1 := by simp
        set r := unit_loop (d >>> 10) (b :: t2) with hr
        refine ⟨h1, by omega, ?_, ?_, h5⟩
        · have e : (a :: b :: t2).length - r.2.length
              = ((b :: t2).length - r.2.length) + 1 := by omega
          rw [e, List.drop_succ_cons]
          exact h3
        · have e : (a :: b :: t2).length - r.2.length
              = ((b :: t2).length - r.2.length) + 1 := by omega
          rw [e, pow_succ, ← mul_assoc, h4, shr_10_eq_div]
          omega
      · have hstep : unit_loop d (a :: b :: t2) = (d, a :: b :: t2) := by
          simp [unit_loop, hd]
        rw [hstep]
        have hmod : d % 1024 ≠ 0 := by rw [← and_1023_eq_mod]; exact hd
        refine ⟨by simp, le_refl _, by simp, by simp, Or.inr ?_⟩
        intro hdvd
        exact hmod (Nat.mod_eq_zero_of_dvd hdvd)

theorem unit_loop_zero (u : List Char) : ∀ a : Char,
    unit_loop 0 (a :: u) = (0, [(a :: u).getLast (by simp)]) := by
  induction u with
  | nil => intro a; simp [unit_loop]
  | cons b t ih =>
    intro a
    have : unit_loop 0 (a :: b :: t) = unit_loop 0 (b :: t) := by
      simp [unit_loop]
    rw [this, ih b]
    simp

/-! ## The decoder: frame and output lemmas -/

theorem dump_prot_step_frame (c : Consts) (st : pg_state) (addr : Nat)
    (acc : Globals × List Out) (b : prot_bits) :
    (dump_prot_step c st addr acc b).1.temp_flag = acc.1.temp_flag ∧
    (dump_prot_step c st addr acc b).1.address_markers = acc.1.address_markers ∧
    (dump_prot_step c st addr acc b).1.pg_level = acc.1.pg_level ∧
    (dump_prot_step c st addr acc b).1.cma_virt_start = acc.1.cma_virt_start ∧
    (dump_prot_step c st addr acc b).1.cma_virt_end = acc.1.cma_virt_end := by
  unfold dump_prot_step
  cases chosen_label st.current_prot b with
  | none => simp
  | some s =>
    simp only
    split_ifs <;> simp

theorem dump_prot_step_out (c : Consts) (st : pg_state) (addr : Nat)
    (acc : Globals × List Out) (b : prot_bits) :
    (dump_prot_step c st addr acc b).2 =
      acc.2 ++ (if acc.1.temp_flag ≠ 0 then
        ((chosen_label st.current_prot b).toList.map Out.prot) else []) := by
  unfold dump_prot_step
  cases chosen_label st.current_prot b with
  | none => simp
  | some s =>
    simp only
    split_ifs <;> simp

theorem dump_prot_fold_frame (c : Consts) (st : pg_state) (addr : Nat)
    (bits : List prot_bits) : ∀ acc : Globals × List Out,
    (bits.foldl (dump_prot_step c st addr) acc).1.temp_flag = acc.1.temp_flag ∧
    (bits.foldl (dump_prot_step c st addr) acc).1.address_markers = acc.1.address_markers ∧
    (bits.foldl (dump_prot_step c st addr) acc).1.pg_level = acc.1.pg_level ∧
    (bits.foldl (dump_prot_step c st addr) acc).1.cma_virt_start = acc.1.cma_virt_start ∧
    (bits.foldl (dump_prot_step c st addr) acc).1.cma_virt_end = acc.1.cma_virt_end := by
  induction bits with
  | nil => intro acc; simp
  | cons b t ih =>
    intro acc
    rw [List.foldl_cons]
    obtain ⟨h1, h2, h3, h4, h5⟩ := ih (dump_prot_step c st addr acc b)
    obtain ⟨k1, k2, k3, k4, k5⟩ := dump_prot_step_frame c st addr acc b
    exact ⟨h1.trans k1, h2.trans k2, h3.trans k3, h4.trans k4, h5.trans k5⟩

theorem dump_prot_fold_out (c : Consts) (st : pg_state) (addr : Nat)
    (bits : List prot_bits) : ∀ acc : Globals × List Out,
    (bits.foldl (dump_prot_step c st addr) acc).2 =
      acc.2 ++ (if acc.1.temp_flag ≠ 0 then
        ((bits.filterMap (chosen_label st.current_prot)).map Out.prot) else []) := by
  induction bits with
  | nil => intro acc; simp
  | cons b t ih =>
    intro acc
    rw [List.foldl_cons, ih, dump_prot_step_out, (dump_prot_step_frame c st addr acc b).1]
    by_cases hf : acc.1.temp_flag = 0
    · simp [hf]
    · cases hl : chosen_label st.current_prot b with
      | none => simp [hf, List.filterMap_cons, hl]
      | some s => simp [hf, List.filterMap_cons, hl]

theorem dump_prot_frame (c : Consts) (g : Globals) (st : pg_state)
    (bits : List prot_bits) (addr : Nat) :
    (dump_prot c g st bits addr).1.temp_flag = g.temp_flag ∧
    (dump_prot c g st bits addr).1.address_markers = g.address_markers ∧
    (dump_prot c g st bits addr).1.pg_level = g.pg_level ∧
    (dump_prot c g st bits addr).1.cma_virt_start = g.cma_virt_start ∧
    (dump_prot c g st bits addr).1.cma_virt_end = g.cma_virt_end :=
  dump_prot_fold_frame c st addr bits (g, [])

theorem dump_prot_out (c : Consts) (g : Globals) (st : pg_state)
    (bits : List prot_bits) (addr : Nat) :
    (dump_prot c g st bits addr).2 =
      if g.temp_flag ≠ 0 then
        (bits.filterMap (chosen_label st.current_prot)).map Out.prot else [] := by
  unfold dump_prot
  rw [dump_prot_fold_out]
  simp

theorem call_dump_prot_frame (c : Consts) (g : Globals) (st : pg_state) (sl : pg_level)
    (addr : Nat) :
    (call_dump_prot c g st sl addr).1.temp_flag = g.temp_flag ∧
    (call_dump_prot c g st sl addr).1.address_markers = g.address_markers ∧
    (call_dump_prot c g st sl addr).1.pg_level = g.pg_level ∧
    (call_dump_prot c g st sl addr).1.cma_virt_start = g.cma_virt_start ∧
    (call_dump_prot c g st sl addr).1.cma_virt_end = g.cma_virt_end := by
  unfold call_dump_prot
  cases sl.bits with
  | none => simp
  | some bits => exact dump_prot_frame c g st bits addr

theorem call_dump_prot_out (c : Consts) (g : Globals) (st : pg_state) (sl : pg_level)
    (addr : Nat) :
    (call_dump_prot c g st sl addr).2 =
      if g.temp_flag ≠ 0 then
        ((sl.bits.getD []).filterMap (chosen_label st.current_prot)).map Out.prot else [] := by
  unfold call_dump_prot
  cases sl.bits with
  | none => simp
  | some bits => simpa using dump_prot_out c g st bits addr

/-! ## The run recorder: case lemmas -/

theorem close_line_zero (c : Consts) (g : Globals) (st : pg_state) (addr : Nat)
    (hprot : st.current_prot = 0) : close_line c g st addr = some (g, []) := by
  simp [close_line, hprot]

theorem close_line_reporting (c : Consts) (g : Globals) (st : pg_state) (addr : Nat)
    (sl : pg_level) (hprot : st.current_prot ≠ 0) (hsl : g.pg_level[st.level]? = some sl)
    (hflag : g.temp_flag ≠ 0) :
    close_line c g st addr = some ((call_dump_prot c g st sl addr).1,
      [Out.range st.start_address addr,
       Out.size (unit_loop (ulong_sub addr st.start_address >>> 10) units).1
         (unit_char (unit_loop (ulong_sub addr st.start_address >>> 10) units).2)] ++
      ((sl.bits.getD []).filterMap (chosen_label st.current_prot)).map Out.prot ++
      [Out.newline]) := by
  have hf := (call_dump_prot_frame c g st sl addr).1
  simp [close_line, hprot, hsl, print_if, hflag, hf, call_dump_prot_out]

theorem close_line_silent (c : Consts) (g : Globals) (st : pg_state) (addr : Nat)
    (sl : pg_level) (hprot : st.current_prot ≠ 0) (hsl : g.pg_level[st.level]? = some sl)
    (hflag : g.temp_flag = 0) :
    close_line c g st addr = some ((call_dump_prot c g st sl addr).1, []) := by
  have hf := (call_dump_prot_frame c g st sl addr).1
  simp [close_line, hprot, hsl, print_if, hflag, hf, call_dump_prot_out]

/-- A call on an open run whose close condition holds: the result in terms of
`close_line`. -/
theorem note_page_close (c : Consts) (g : Globals) (st : pg_state) (addr level val : Nat)
    (pl : pg_level) (m1 : addr_marker) (g1 : Globals) (line : List Out)
    (hopen : st.level ≠ 0) (hceil : c.USER_PGTABLES_CEILING ≤ addr)
    (hpl : g.pg_level[level]? = some pl)
    (hm1 : g.address_markers[st.marker + 1]? = some m1)
    (hcond : val &&& pl.mask ≠ st.current_prot ∨ level ≠ st.level ∨
      addr ≥ m1.start_address)
    (hline : close_line c g st addr = some (g1, line)) :
    note_page c g st addr level val = some (g1,
      { marker := if addr ≥ m1.start_address then st.marker + 1 else st.marker,
        start_address := addr, level := level, current_prot := val &&& pl.mask },
      line ++ if addr ≥ m1.start_address then print_if g1 (Out.header m1.name) else []) := by
  have hc : ¬ addr < c.USER_PGTABLES_CEILING := by omega
  by_cases hx : addr ≥ m1.start_address
  · simp only [note_page, hpl, hc, hopen, hm1, if_false, if_pos hcond, hline, if_pos hx]
  · simp only [note_page, hpl, hc, hopen, hm1, if_false, if_pos hcond, hline, if_neg hx,
      List.append_nil]

/-- A call on an open run whose close condition fails changes nothing. -/
theorem note_page_continue (c : Consts) (g : Globals) (st : pg_state) (addr level val : Nat)
    (pl : pg_level) (m1 : addr_marker)
    (hopen : st.level ≠ 0) (hceil : c.USER_PGTABLES_CEILING ≤ addr)
    (hpl : g.pg_level[level]? = some pl)
    (hm1 : g.address_markers[st.marker + 1]? = some m1)
    (hcond : ¬ (val &&& pl.mask ≠ st.current_prot ∨ level ≠ st.level ∨
      addr ≥ m1.start_address)) :
    note_page c g st addr level val = some (g, st, []) := by
  have hc : ¬ addr < c.USER_PGTABLES_CEILING := by omega
  simp only [note_page, hpl, hc, hopen, hm1, if_false, if_neg hcond]

theorem note_page_below_ceiling (c : Consts) (g : Globals) (st : pg_state)
    (addr level val : Nat) (pl : pg_level)
    (hpl : g.pg_level[level]? = some pl) (hlow : addr < c.USER_PGTABLES_CEILING) :
    note_page c g st addr level val = some (g, st, []) := by
  simp only [note_page, hpl, if_pos hlow]

theorem note_page_first (c : Consts) (g : Globals) (st : pg_state)
    (addr level val : Nat) (pl : pg_level) (m : addr_marker)
    (hnone : st.level = 0) (hceil : c.USER_PGTABLES_CEILING ≤ addr)
    (hpl : g.pg_level[level]? = some pl)
    (hm : g.address_markers[st.marker]? = some m) :
    note_page c g st addr level val = some (g,
      { st with level := level, current_prot := val &&& pl.mask },
      print_if g (Out.header m.name)) := by
  have hc : ¬ addr < c.USER_PGTABLES_CEILING := by omega
  by_cases hf : g.temp_flag = 0
  · simp [note_page, hpl, hc, hnone, hf, print_if]
  · simp [note_page, hpl, hc, hnone, hf, hm, print_if]

theorem range_tokens_prot (labels : List String) :
    range_tokens (labels.map Out.prot) = [] := by
  induction labels with
  | nil => rfl
  | cons a t ih =>
    simp only [range_tokens] at ih
    simp [range_tokens, Out.is_range, ih]

theorem range_tokens_print_header (g : Globals) (name : Option String) :
    range_tokens (print_if g (Out.header name)) = [] := by
  unfold print_if
  split_ifs <;> simp [range_tokens, Out.is_range]

theorem range_tokens_append (a b : List Out) :
    range_tokens (a ++ b) = range_tokens a ++ range_tokens b := by
  simp [range_tokens]

/-- The range tokens of the output of `close_line`. -/
theorem close_line_range_tokens (c : Consts) (g : Globals) (st : pg_state) (addr : Nat)
    (sl : pg_level) (hsl : g.pg_level[st.level]? = some sl) :
    ∃ g1 line, close_line c g st addr = some (g1, line) ∧
      g1.temp_flag = g.temp_flag ∧
      range_tokens line =
        if st.current_prot ≠ 0 ∧ g.temp_flag ≠ 0 then
          [Out.range st.start_address addr] else [] := by
  by_cases hp : st.current_prot = 0
  · exact ⟨g, [], close_line_zero c g st addr hp, rfl, by simp [hp, range_tokens]⟩
  · by_cases hf : g.temp_flag = 0
    · exact ⟨_, [], close_line_silent c g st addr sl hp hsl hf,
        (call_dump_prot_frame c g st sl addr).1, by simp [hf, range_tokens]⟩
    · refine ⟨_, _, close_line_reporting c g st addr sl hp hsl hf,
        (call_dump_prot_frame c g st sl addr).1, ?_⟩
      rw [range_tokens_append, range_tokens_append, range_tokens_prot]
      simp [range_tokens, Out.is_range, hp, hf]

theorem render_all_prot (labels : List String) :
    render_all (labels.map Out.prot) = String.join (labels.map (fun s => " " ++ s)) := by
  simp [render_all, List.map_map, Function.comp_def, Out.render]

/-! ## Claims -/

/-- C1 (run merging): on an open run, a call at or above the ceiling with the level and
masked attributes of the run and an address below the start of the successor of the
current marker prints nothing and leaves the globals (both counters included) and the
whole walk state unchanged. Hence the entry adds no line of its own: any later calls
behave as if it had not been made, and a following closing call in reporting mode
prints the single range that starts at the start of the run. -/
theorem note_page_merges_run (c : Consts) (g : Globals) (st : pg_state)
    (addr level val : Nat) (pl : pg_level) (m1 : addr_marker)
    (hopen : st.level ≠ 0) (hceil : c.USER_PGTABLES_CEILING ≤ addr)
    (hlevel : level = st.level)
    (hpl : g.pg_level[level]? = some pl)
    (hprot : val &&& pl.mask = st.current_prot)
    (hm1 : g.address_markers[st.marker + 1]? = some m1)
    (haddr : addr < m1.start_address) :
    note_page c g st addr level val = some (g, st, []) ∧
    (∀ ks : List Call,
      note_pages c g st ({ addr := addr, level := level, val := val } :: ks) =
        note_pages c g st ks) ∧
    (∀ (addr2 level2 val2 : Nat) (pl2 : pg_level),
      c.USER_PGTABLES_CEILING ≤ addr2 → g.pg_level[level2]? = some pl2 →
      (val2 &&& pl2.mask ≠ st.current_prot ∨ level2 ≠ st.level ∨
        addr2 ≥ m1.start_address) →
      st.current_prot ≠ 0 → g.temp_flag ≠ 0 →
      ∃ g2 st2 out,
        note_pages c g st [{ addr := addr, level := level, val := val },
          { addr := addr2, level := level2, val := val2 }] = some (g2, st2, out) ∧
        range_tokens out = [Out.range st.start_address addr2]) := by
  have hstep : note_page c g st addr level val = some (g, st, []) := by
    apply note_page_continue c g st addr level val pl m1 hopen hceil hpl hm1
    intro h
    rcases h with h | h | h
    · exact h hprot
    · exact h hlevel
    · omega
  have hseq : ∀ ks : List Call,
      note_pages c g st ({ addr := addr, level := level, val := val } :: ks) =
        note_pages c g st ks := by
    intro ks
    simp only [note_pages, hstep]
    cases note_pages c g st ks with
    | none => rfl
    | some r => obtain ⟨g2, st2, out2⟩ := r; simp
  refine ⟨hstep, hseq, ?_⟩
  intro addr2 level2 val2 pl2 hceil2 hpl2 hcond hp hf
  have hsl : g.pg_level[st.level]? = some pl := by rw [← hlevel]; exact hpl
  obtain ⟨g1, line, hline, _, hrt⟩ := close_line_range_tokens c g st addr2 pl hsl
  have hclose := note_page_close c g st addr2 level2 val2 pl2 m1 g1 line hopen hceil2
    hpl2 hm1 hcond hline
  refine ⟨g1, pg_state.mk (if addr2 ≥ m1.start_address then st.marker + 1 else st.marker)
      addr2 level2 (val2 &&& pl2.mask),
    (line ++ if addr2 ≥ m1.start_address then print_if g1 (Out.header m1.name) else [])
      ++ [], ?_, ?_⟩
  · rw [hseq]
    simp only [note_pages, hclose]
  · rw [List.append_nil, range_tokens_append, hrt, if_pos ⟨hp, hf⟩]
    by_cases hx : addr2 ≥ m1.start_address
    · rw [if_pos hx, range_tokens_print_header]; rfl
    · rw [if_neg hx]; rfl

/-- Witness of C1: a second page of a write-back shared mapping in the modules area. -/
theorem note_page_merges_run_witness :
    (open_run_state.level ≠ 0 ∧ (arm_consts 0).USER_PGTABLES_CEILING ≤ 0xbf001000 ∧
      4 = open_run_state.level ∧
      (arm_globals 0 1 0 0).pg_level[4]? = some arm_pte_level ∧
      0x8f00140f &&& arm_pte_level.mask = open_run_state.current_prot ∧
      (arm_globals 0 1 0 0).address_markers[open_run_state.marker + 1]? =
        some { start_address := 0xc0000000, name := some "Kernel Mapping" } ∧
      0xbf001000 < 0xc0000000) ∧
    note_page (arm_consts 0) (arm_globals 0 1 0 0) open_run_state 0xbf001000 4 0x8f00140f =
      some (arm_globals 0 1 0 0, open_run_state, []) :=
  ⟨⟨by decide, by decide, by decide, by rfl, by decide, by rfl, by decide⟩,
   (note_page_merges_run (arm_consts 0) (arm_globals 0 1 0 0) open_run_state 0xbf001000 4
      0x8f00140f arm_pte_level { start_address := 0xc0000000, name := some "Kernel Mapping" }
      (by decide) (by decide) (by decide) (by rfl) (by decide) (by rfl) (by decide)).1⟩

/-- C2 (run close): on an open run, a call at or above the ceiling closes the run
exactly when the masked attributes differ from those of the run, or the level differs,
or the address has reached the start of the successor of the current marker. When the
condition fails nothing changes and nothing is printed; when it holds the walk state
changes and afterwards holds the new run (start address, level and masked attributes of
the call), and the range tokens printed are the single range from the start of the old
run to the address of the call when the old attributes are non-zero in reporting mode,
and none otherwise. -/
theorem note_page_closes_run_iff (c : Consts) (g : Globals) (st : pg_state)
    (addr level val : Nat) (pl sl : pg_level) (m1 : addr_marker)
    (hopen : st.level ≠ 0) (hceil : c.USER_PGTABLES_CEILING ≤ addr)
    (hpl : g.pg_level[level]? = some pl)
    (hsl : g.pg_level[st.level]? = some sl)
    (hm1 : g.address_markers[st.marker + 1]? = some m1) :
    ∃ g2 st2 out, note_page c g st addr level val = some (g2, st2, out) ∧
      (st2 ≠ st ↔ (val &&& pl.mask ≠ st.current_prot ∨ level ≠ st.level ∨
        addr ≥ m1.start_address)) ∧
      (¬ (val &&& pl.mask ≠ st.current_prot ∨ level ≠ st.level ∨
          addr ≥ m1.start_address) → g2 = g ∧ st2 = st ∧ out = []) ∧
      ((val &&& pl.mask ≠ st.current_prot ∨ level ≠ st.level ∨
          addr ≥ m1.start_address) →
        st2.start_address = addr ∧ st2.level = level ∧
        st2.current_prot = val &&& pl.mask ∧
        range_tokens out =
          if st.current_prot ≠ 0 ∧ g.temp_flag ≠ 0 then
            [Out.range st.start_address addr] else []) := by
  by_cases hcond : val &&& pl.mask ≠ st.current_prot ∨ level ≠ st.level ∨
      addr ≥ m1.start_address
  · obtain ⟨g1, line, hline, _, hrt⟩ := close_line_range_tokens c g st addr sl hsl
    have hclose := note_page_close c g st addr level val pl m1 g1 line hopen hceil
      hpl hm1 hcond hline
    refine ⟨g1, _, _, hclose, ?_, fun h => absurd hcond h, fun _ => ⟨rfl, rfl, rfl, ?_⟩⟩
    · refine ⟨fun _ => hcond, fun _ heq => ?_⟩
      have e1 := congrArg pg_state.marker heq
      have e2 := congrArg pg_state.level heq
      have e3 := congrArg pg_state.current_prot heq
      simp only at e1 e2 e3
      rcases hcond with h | h | h
      · exact h e3
      · exact h e2
      · rw [if_pos h] at e1; omega
    · rw [range_tokens_append, hrt]
      by_cases hx : addr ≥ m1.start_address
      · rw [if_pos hx, range_tokens_print_header, List.append_nil]
      · rw [if_neg hx]
        simp [range_tokens]
  · have hcont := note_page_continue c g st addr level val pl m1 hopen hceil hpl hm1 hcond
    exact ⟨g, st, [], hcont, ⟨fun h => absurd rfl h, fun h => absurd h hcond⟩,
      fun _ => ⟨rfl, rfl, rfl⟩, fun h => absurd h hcond⟩

/-- Witness of C2: the page after a write-back shared run is not mapped. -/
theorem note_page_closes_run_iff_witness :
    (open_run_state.level ≠ 0 ∧ (arm_consts 0).USER_PGTABLES_CEILING ≤ 0xbf002000 ∧
      (arm_globals 0 1 0 0).pg_level[4]? = some arm_pte_level ∧
      (arm_globals 0 1 0 0).pg_level[open_run_state.level]? = some arm_pte_level ∧
      (arm_globals 0 1 0 0).address_markers[open_run_state.marker + 1]? =
        some { start_address := 0xc0000000, name := some "Kernel Mapping" }) ∧
    ∃ g2 st2 out,
      note_page (arm_consts 0) (arm_globals 0 1 0 0) open_run_state 0xbf002000 4 0 =
        some (g2, st2, out) ∧
      st2.start_address = 0xbf002000 ∧ st2.level = 4 ∧ st2.current_prot = 0 ∧
      range_tokens out = [Out.range 0xbf000000 0xbf002000] := by
  refine ⟨⟨by decide, by decide, by rfl, by rfl, by rfl⟩, ?_⟩
  obtain ⟨g2, st2, out, h, _, _, hc⟩ :=
    note_page_closes_run_iff (arm_consts 0) (arm_globals 0 1 0 0) open_run_state
      0xbf002000 4 0 arm_pte_level arm_pte_level
      { start_address := 0xc0000000, name := some "Kernel Mapping" }
      (by decide) (by decide) (by rfl) (by rfl) (by rfl)
  obtain ⟨h1, h2, h3, h4⟩ := hc (Or.inl (by decide))
  refine ⟨g2, st2, out, h, h1, h2, h3, ?_⟩
  rw [h4]
  rfl

/-- C6 (marker crossing): on an open run with non-zero attributes, a call at or above
the ceiling whose address has reached the start of the successor of the current
marker prints, in reporting mode, the line of the old run (range from the start of
the run to the address, size, labels, newline) followed immediately by the header of
the successor marker; the marker advances by exactly one entry and the output holds
exactly one range token, whatever the level and attributes of the call are. -/
theorem note_page_marker_crossing (c : Consts) (g : Globals) (st : pg_state)
    (addr level val : Nat) (pl sl : pg_level) (m1 : addr_marker)
    (hopen : st.level ≠ 0) (hprot : st.current_prot ≠ 0)
    (hceil : c.USER_PGTABLES_CEILING ≤ addr)
    (hpl : g.pg_level[level]? = some pl)
    (hsl : g.pg_level[st.level]? = some sl)
    (hm1 : g.address_markers[st.marker + 1]? = some m1)
    (hcross : addr ≥ m1.start_address) (hflag : g.temp_flag ≠ 0) :
    ∃ (g2 : Globals) (st2 : pg_state) (out : List Out) (size : Nat) (unit : Char)
      (labels : List String),
      note_page c g st addr level val = some (g2, st2, out) ∧
      out = [Out.range st.start_address addr, Out.size size unit] ++
        labels.map Out.prot ++ [Out.newline, Out.header m1.name] ∧
      range_tokens out = [Out.range st.start_address addr] ∧
      st2.marker = st.marker + 1 ∧ st2.start_address = addr ∧ st2.level = level ∧
      st2.current_prot = val &&& pl.mask := by
  have hline := close_line_reporting c g st addr sl hprot hsl hflag
  have hf1 : (call_dump_prot c g st sl addr).1.temp_flag ≠ 0 := by
    rw [(call_dump_prot_frame c g st sl addr).1]; exact hflag
  have hclose := note_page_close c g st addr level val pl m1 _ _ hopen hceil hpl hm1
    (Or.inr (Or.inr hcross)) hline
  rw [if_pos hcross, if_pos hcross] at hclose
  refine ⟨_, _, _, (unit_loop (ulong_sub addr st.start_address >>> 10) units).1,
    unit_char (unit_loop (ulong_sub addr st.start_address >>> 10) units).2,
    (sl.bits.getD []).filterMap (chosen_label st.current_prot),
    hclose, ?_, ?_, rfl, rfl, rfl, rfl⟩
  · simp [print_if, hf1]
  · simp only [range_tokens_append, range_tokens_prot, range_tokens_print_header]
    simp [range_tokens, Out.is_range]

/-- Witness of C6: the run reaches the start of the kernel mapping with unchanged
attributes. -/
theorem note_page_marker_crossing_witness :
    (open_run_state.level ≠ 0 ∧ open_run_state.current_prot ≠ 0 ∧
      (arm_consts 0).USER_PGTABLES_CEILING ≤ 0xc0000000 ∧
      (arm_globals 0 1 0 0).pg_level[4]? = some arm_pte_level ∧
      (arm_globals 0 1 0 0).pg_level[open_run_state.level]? = some arm_pte_level ∧
      (arm_globals 0 1 0 0).address_markers[open_run_state.marker + 1]? =
        some { start_address := 0xc0000000, name := some "Kernel Mapping" } ∧
      0xc0000000 ≥ 0xc0000000 ∧ (arm_globals 0 1 0 0).temp_flag ≠ 0) ∧
    ∃ (g2 : Globals) (st2 : pg_state) (out : List Out) (size : Nat) (unit : Char)
      (labels : List String),
      note_page (arm_consts 0) (arm_globals 0 1 0 0) open_run_state 0xc0000000 4 0x40c =
        some (g2, st2, out) ∧
      out = [Out.range 0xbf000000 0xc0000000, Out.size size unit] ++
        labels.map Out.prot ++ [Out.newline, Out.header (some "Kernel Mapping")] ∧
      range_tokens out = [Out.range 0xbf000000 0xc0000000] ∧
      st2.marker = 1 ∧ st2.start_address = 0xc0000000 ∧ st2.level = 4 ∧
      st2.current_prot = 0x40c :=
  ⟨⟨by decide, by decide, by decide, by rfl, by rfl, by rfl, by decide, by decide⟩,
   note_page_marker_crossing (arm_consts 0) (arm_globals 0 1 0 0) open_run_state
      0xc0000000 4 0x40c arm_pte_level arm_pte_level
      { start_address := 0xc0000000, name := some "Kernel Mapping" }
      (by decide) (by decide) (by decide) (by rfl) (by rfl) (by rfl) (by decide)
      (by decide)⟩

/-- C3 (opening the first run), evaluated on the code: with a ceiling of `0xbf000000`
the first call of a walk that reaches the recorder is at `0xbf000000`. On the fresh
walk state `note_page` sets the level and the masked attributes and prints the header
of the current marker, but the start address of the run stays `0`, the value left by
`memset`, instead of becoming the address of the call. -/
theorem note_page_first_run_keeps_start :
    note_page (arm_consts 0xbf000000) (arm_globals 0xbf000000 1 0 0) pg_state_init
        0xbf000000 4 0x8f00140f =
      some (arm_globals 0xbf000000 1 0 0,
        { marker := 0, start_address := 0, level := 4, current_prot := 0x40c },
        [Out.header (some "Modules")]) ∧
    (0 : Nat) ≠ 0xbf000000 := by
  constructor
  · rw [note_page_first (arm_consts 0xbf000000) (arm_globals 0xbf000000 1 0 0)
      pg_state_init 0xbf000000 4 0x8f00140f arm_pte_level
      { start_address := 0xbf000000, name := some "Modules" } rfl (by decide) (by rfl)
      (by rfl)]
    rfl
  · decide

/-- C4 (unit scaling is exact): when a run with non-zero attributes is closed in
reporting mode, the size token printed after the range carries the value `v` and the
unit character left by the scaling loop started on `d = (addr - start_address) >> 10`.
The loop makes `k ≤ 5` steps, the unit character is the `k`-th character of `KMGTPE`,
`v * 1024 ^ k = d`, and `k = 5` or `v` is not divisible by `1024`; when the byte length
is a multiple of `1024`, `v * 1024 ^ (k + 1)` is the byte length. A delta of `1024` is
printed as `1M` and a delta of `1023` as `1023K`. -/
theorem unit_scaling_exact (c : Consts) (g : Globals) (st : pg_state) (addr : Nat)
    (sl : pg_level) (hprot : st.current_prot ≠ 0)
    (hsl : g.pg_level[st.level]? = some sl) (hflag : g.temp_flag ≠ 0) :
    (∃ (g1 : Globals) (labels : List String), close_line c g st addr = some (g1,
      [Out.range st.start_address addr,
       Out.size (unit_loop (ulong_sub addr st.start_address >>> 10) units).1
         (unit_char (unit_loop (ulong_sub addr st.start_address >>> 10) units).2)] ++
      labels.map Out.prot ++ [Out.newline])) ∧
    (∀ d : Nat,
      units.length - (unit_loop d units).2.length ≤ 5 ∧
      units[units.length - (unit_loop d units).2.length]? =
        some (unit_char (unit_loop d units).2) ∧
      (unit_loop d units).1 * 1024 ^ (units.length - (unit_loop d units).2.length) = d ∧
      (units.length - (unit_loop d units).2.length = 5 ∨ ¬ 1024 ∣ (unit_loop d units).1)) ∧
    (1024 ∣ ulong_sub addr st.start_address →
      (unit_loop (ulong_sub addr st.start_address >>> 10) units).1 *
        1024 ^ (units.length -
          (unit_loop (ulong_sub addr st.start_address >>> 10) units).2.length + 1) =
        ulong_sub addr st.start_address) ∧
    ((unit_loop 1024 units).1 = 1 ∧ unit_char (unit_loop 1024 units).2 = 'M') ∧
    ((unit_loop 1023 units).1 = 1023 ∧ unit_char (unit_loop 1023 units).2 = 'K') := by
  have hgen : ∀ d : Nat,
      units.length - (unit_loop d units).2.length ≤ 5 ∧
      units[units.length - (unit_loop d units).2.length]? =
        some (unit_char (unit_loop d units).2) ∧
      (unit_loop d units).1 * 1024 ^ (units.length - (unit_loop d units).2.length) = d ∧
      (units.length - (unit_loop d units).2.length = 5 ∨
        ¬ 1024 ∣ (unit_loop d units).1) := by
    intro d
    obtain ⟨h1, h2, h3, h4, h5⟩ := unit_loop_spec units d (by simp [units])
    have hlen : units.length = 6 := rfl
    have hpos : 0 < (unit_loop d units).2.length := List.length_pos.mpr h1
    refine ⟨by omega, ?_, h4, ?_⟩
    · have hhead : ∀ (l : List Char) (n : Nat), l.drop n ≠ [] →
          l[n]? = some (unit_char (l.drop n)) := by
        intro l n hne
        cases hd : l.drop n with
        | nil => exact absurd hd hne
        | cons a t =>
          have := List.getElem?_drop l n 0
          rw [hd] at this
          simpa [unit_char] using this.symm
      have := hhead units (units.length - (unit_loop d units).2.length) (by rw [← h3]; exact h1)
      rw [← h3] at this
      exact this
    · rcases h5 with h5 | h5
      · left; omega
      · right; exact h5
  refine ⟨⟨_, _, close_line_reporting c g st addr sl hprot hsl hflag⟩, hgen, ?_,
    ⟨by decide, by decide⟩, ⟨by decide, by decide⟩⟩
  intro hdvd
  obtain ⟨_, _, h4, _⟩ := hgen (ulong_sub addr st.start_address >>> 10)
  rw [pow_succ, ← mul_assoc, h4, shr_10_eq_div]
  exact Nat.div_mul_cancel hdvd

/-- Witness of C4: a 4 MiB run of write-back shared pages is printed with size `4M`. -/
theorem unit_scaling_exact_witness :
    (open_run_state.current_prot ≠ 0 ∧
      (arm_globals 0 1 0 0).pg_level[open_run_state.level]? = some arm_pte_level ∧
      (arm_globals 0 1 0 0).temp_flag ≠ 0) ∧
    (unit_loop (ulong_sub 0xbf400000 open_run_state.start_address >>> 10) units).1 *
        1024 ^ (units.length -
          (unit_loop (ulong_sub 0xbf400000 open_run_state.start_address >>> 10)
            units).2.length + 1) =
      ulong_sub 0xbf400000 open_run_state.start_address :=
  ⟨⟨by decide, by rfl, by decide⟩,
   (unit_scaling_exact (arm_consts 0) (arm_globals 0 1 0 0) open_run_state 0xbf400000
      arm_pte_level (by decide) (by rfl) (by decide)).2.2.1 (by decide)⟩

/-- C5, as stated, fails: a run closed at its own start address has a KB delta of `0`,
and the size token printed for it carries the unit character `E`, not `K`. -/
theorem zero_delta_not_base_unit :
    ulong_sub 0xbf000000 open_run_state.start_address >>> 10 = 0 ∧
    note_page (arm_consts 0) (arm_globals 0 1 0 0) open_run_state 0xbf000000 4 0 =
      some (arm_globals 0 1 0 0,
        { marker := 0, start_address := 0xbf000000, level := 4, current_prot := 0 },
        [Out.range 0xbf000000 0xbf000000, Out.size 0 'E', Out.prot "   ", Out.prot "RW",
         Out.prot "x ", Out.prot "SHD", Out.prot "MEM/CACHED/WBRA", Out.newline]) ∧
    Out.size 0 'E' ≠ Out.size 0 'K' := by
  refine ⟨by decide, ?_, by decide⟩
  rfl

/-- C5 as amended: when a run with non-zero attributes is closed in reporting mode and
its KB delta `(addr - start_address) >> 10` is `0`, the scaling loop advances through
the whole ladder and the size is printed as value `0` with the last unit character
`E`. -/
theorem zero_delta_prints_last_unit (c : Consts) (g : Globals) (st : pg_state)
    (addr : Nat) (sl : pg_level) (hprot : st.current_prot ≠ 0)
    (hsl : g.pg_level[st.level]? = some sl) (hflag : g.temp_flag ≠ 0)
    (hzero : ulong_sub addr st.start_address >>> 10 = 0) :
    unit_loop (ulong_sub addr st.start_address >>> 10) units = (0, ['E']) ∧
    ∃ (g1 : Globals) (labels : List String), close_line c g st addr = some (g1,
      [Out.range st.start_address addr, Out.size 0 'E'] ++
      labels.map Out.prot ++ [Out.newline]) := by
  have hloop : unit_loop (ulong_sub addr st.start_address >>> 10) units = (0, ['E']) := by
    rw [hzero]; rfl
  have h := close_line_reporting c g st addr sl hprot hsl hflag
  rw [hloop] at h
  exact ⟨hloop, _, _, h⟩

/-- Witness of C5 as amended: a run closed at its own start address. -/
theorem zero_delta_prints_last_unit_witness :
    (open_run_state.current_prot ≠ 0 ∧
      (arm_globals 0 1 0 0).pg_level[open_run_state.level]? = some arm_pte_level ∧
      (arm_globals 0 1 0 0).temp_flag ≠ 0 ∧
      ulong_sub 0xbf000000 open_run_state.start_address >>> 10 = 0) ∧
    unit_loop (ulong_sub 0xbf000000 open_run_state.start_address >>> 10) units =
      (0, ['E']) :=
  ⟨⟨by decide, by rfl, by decide, by decide⟩,
   (zero_delta_prints_last_unit (arm_consts 0) (arm_globals 0 1 0 0) open_run_state
      0xbf000000 arm_pte_level (by decide) (by rfl) (by decide) (by decide)).1⟩

/-- C7 (a run with zero attributes prints no line): on an open run whose attributes
are zero, a closing call at or above the ceiling leaves the globals, and so both
counters, unchanged; the block that prints the range, the size and the labels and that
calls `dump_prot` is skipped, and the only output is the header of the successor
marker, in reporting mode, when the call crosses the marker boundary. -/
theorem note_page_zero_run_no_line (c : Consts) (g : Globals) (st : pg_state)
    (addr level val : Nat) (pl : pg_level) (m1 : addr_marker)
    (hopen : st.level ≠ 0) (hzero : st.current_prot = 0)
    (hceil : c.USER_PGTABLES_CEILING ≤ addr)
    (hpl : g.pg_level[level]? = some pl)
    (hm1 : g.address_markers[st.marker + 1]? = some m1)
    (hcond : val &&& pl.mask ≠ st.current_prot ∨ level ≠ st.level ∨
      addr ≥ m1.start_address) :
    close_line c g st addr = some (g, []) ∧
    ∃ (st2 : pg_state) (out : List Out),
      note_page c g st addr level val = some (g, st2, out) ∧
      out = (if addr ≥ m1.start_address ∧ g.temp_flag ≠ 0 then [Out.header m1.name]
        else []) ∧
      (∀ o ∈ out, o = Out.header m1.name) ∧
      st2.start_address = addr ∧ st2.level = level ∧ st2.current_prot = val &&& pl.mask := by
  have hline := close_line_zero c g st addr hzero
  have hclose := note_page_close c g st addr level val pl m1 g [] hopen hceil hpl hm1
    hcond hline
  have hout : ([] ++ if addr ≥ m1.start_address then print_if g (Out.header m1.name)
      else []) =
      (if addr ≥ m1.start_address ∧ g.temp_flag ≠ 0 then [Out.header m1.name] else []) := by
    unfold print_if
    by_cases hx : addr ≥ m1.start_address <;> by_cases hf : g.temp_flag = 0 <;>
      simp [hx, hf]
  refine ⟨hline, _, _, hclose, hout, ?_, rfl, rfl, rfl⟩
  rw [hout]
  intro o ho
  split_ifs at ho
  · simpa using ho
  · simp at ho

/-- Witness of C7: an unmapped run ends where a mapping starts. -/
theorem note_page_zero_run_no_line_witness :
    ((4 : Nat) ≠ 0 ∧ (0 : Nat) = 0 ∧ (arm_consts 0).USER_PGTABLES_CEILING ≤ 0xbf000000 ∧
      (arm_globals 0 1 0 0).pg_level[4]? = some arm_pte_level ∧
      (arm_globals 0 1 0 0).address_markers[0 + 1]? =
        some { start_address := 0xc0000000, name := some "Kernel Mapping" } ∧
      0x8f00140f &&& arm_pte_level.mask ≠ 0) ∧
    close_line (arm_consts 0) (arm_globals 0 1 0 0)
      { marker := 0, start_address := 0, level := 4, current_prot := 0 } 0xbf000000 =
      some (arm_globals 0 1 0 0, []) :=
  ⟨⟨by decide, rfl, by decide, by rfl, by rfl, by decide⟩,
   (note_page_zero_run_no_line (arm_consts 0) (arm_globals 0 1 0 0)
      { marker := 0, start_address := 0, level := 4, current_prot := 0 }
      0xbf000000 4 0x8f00140f arm_pte_level
      { start_address := 0xc0000000, name := some "Kernel Mapping" }
      (by decide) rfl (by decide) (by rfl) (by rfl) (Or.inl (by decide))).1⟩

/-- C8 (attribute decoder): in reporting mode the tokens printed by `dump_prot` are, in
table order, one token per table entry whose chosen label is present, where the chosen
label is `set` when `(current_prot & mask) == val` and `clear` otherwise; the text is
the concatenation of a space followed by the label for each of them. -/
theorem dump_prot_decodes (c : Consts) (g : Globals) (st : pg_state)
    (bits : List prot_bits) (addr : Nat) (hflag : g.temp_flag ≠ 0) :
    (dump_prot c g st bits addr).2 =
      (bits.filterMap
        (fun b => if st.current_prot &&& b.mask = b.val then b.set else b.clear)).map
        Out.prot ∧
    render_all (dump_prot c g st bits addr).2 =
      String.join ((bits.filterMap
        (fun b => if st.current_prot &&& b.mask = b.val then b.set else b.clear)).map
        (fun s => " " ++ s)) := by
  have h : (dump_prot c g st bits addr).2 =
      (bits.filterMap
        (fun b => if st.current_prot &&& b.mask = b.val then b.set else b.clear)).map
        Out.prot := by
    rw [dump_prot_out, if_pos hflag]
    rfl
  exact ⟨h, by rw [h, render_all_prot]⟩

/-- Witness of C8: the labels of a write-back shared page. -/
theorem dump_prot_decodes_witness :
    (arm_globals 0 1 0 0).temp_flag ≠ 0 ∧
    (dump_prot (arm_consts 0) (arm_globals 0 1 0 0) open_run_state
        (pte_bits (arm_consts 0)) 0xbf001000).2 =
      [Out.prot "   ", Out.prot "RW", Out.prot "x ", Out.prot "SHD",
       Out.prot "MEM/CACHED/WBRA"] :=
  ⟨by decide,
   (dump_prot_decodes (arm_consts 0) (arm_globals 0 1 0 0) open_run_state
      (pte_bits (arm_consts 0)) 0xbf001000 (by decide)).1.trans (by rfl)⟩

/-! ## The counters -/

/-- The effect of one iteration of the loop of `dump_prot` on the two counters. -/
theorem dump_prot_step_counters (c : Consts) (st : pg_state) (addr : Nat)
    (acc : Globals × List Out) (b : prot_bits) :
    (dump_prot_step c st addr acc b).1.cache_type =
      (if Run.inside acc.1.cma_virt_start acc.1.cma_virt_end
            { start_address := st.start_address, end_address := addr,
              level := st.level, prot := st.current_prot } = true ∧
          ((chosen_label st.current_prot b).isSome && cache_val c b.val) = true then
        ulong_add acc.1.cache_type (ulong_sub addr st.start_address)
      else acc.1.cache_type) ∧
    (dump_prot_step c st addr acc b).1.buffer_type =
      (if Run.inside acc.1.cma_virt_start acc.1.cma_virt_end
            { start_address := st.start_address, end_address := addr,
              level := st.level, prot := st.current_prot } = true ∧
          ((chosen_label st.current_prot b).isSome && buffer_val c b.val) = true then
        ulong_add acc.1.buffer_type (ulong_sub addr st.start_address)
      else acc.1.buffer_type) := by
  unfold dump_prot_step
  cases chosen_label st.current_prot b with
  | none => simp
  | some s =>
    simp only [Run.inside, cache_val, buffer_val, Option.isSome_some, Bool.true_and,
      decide_eq_true_eq]
    by_cases hw : st.start_address ≥ acc.1.cma_virt_start ∧
        st.start_address < acc.1.cma_virt_end ∧
        addr > acc.1.cma_virt_start ∧ addr ≤ acc.1.cma_virt_end
    · rw [if_pos hw]
      simp only [hw, and_self, true_and]
      split_ifs <;> exact ⟨rfl, rfl⟩
    · rw [if_neg hw]
      simp [hw]

theorem hits_cons (sel : Nat → Bool) (prot : Nat) (b : prot_bits) (t : List prot_bits) :
    hits sel prot (b :: t) =
      (if ((chosen_label prot b).isSome && sel b.val) = true then 1 else 0) +
        hits sel prot t := by
  unfold hits
  rw [List.filter_cons]
  split_ifs <;> simp
  all_goals omega

theorem dump_prot_fold_counters (c : Consts) (st : pg_state) (addr : Nat)
    (bits : List prot_bits) : ∀ acc : Globals × List Out,
    ((bits.foldl (dump_prot_step c st addr) acc).1.cache_type % ULONG_MOD =
      (acc.1.cache_type +
        (if Run.inside acc.1.cma_virt_start acc.1.cma_virt_end
            { start_address := st.start_address, end_address := addr,
              level := st.level, prot := st.current_prot } = true then
          hits (cache_val c) st.current_prot bits * ulong_sub addr st.start_address
        else 0)) % ULONG_MOD ∧
     (acc.1.cache_type < ULONG_MOD →
       (bits.foldl (dump_prot_step c st addr) acc).1.cache_type < ULONG_MOD)) ∧
    ((bits.foldl (dump_prot_step c st addr) acc).1.buffer_type % ULONG_MOD =
      (acc.1.buffer_type +
        (if Run.inside acc.1.cma_virt_start acc.1.cma_virt_end
            { start_address := st.start_address, end_address := addr,
              level := st.level, prot := st.current_prot } = true then
          hits (buffer_val c) st.current_prot bits * ulong_sub addr st.start_address
        else 0)) % ULONG_MOD ∧
     (acc.1.buffer_type < ULONG_MOD →
       (bits.foldl (dump_prot_step c st addr) acc).1.buffer_type < ULONG_MOD)) := by
  induction bits with
  | nil => intro acc; simp [hits]
  | cons b t ih =>
    intro acc
    rw [List.foldl_cons]
    obtain ⟨⟨hc1, hc2⟩, ⟨hb1, hb2⟩⟩ := ih (dump_prot_step c st addr acc b)
    obtain ⟨_, _, _, hws, hwe⟩ := dump_prot_step_frame c st addr acc b
    obtain ⟨sc, sb⟩ := dump_prot_step_counters c st addr acc b
    rw [hws, hwe] at hc1 hb1
    rw [hits_cons, hits_cons, add_mul, add_mul]
    have hM : ULONG_MOD = 4294967296 := rfl
    have hlt : ∀ x y, ulong_add x y < ULONG_MOD := fun x y =>
      Nat.mod_lt _ (by rw [hM]; decide)
    refine ⟨⟨?_, ?_⟩, ⟨?_, ?_⟩⟩
    · rw [hc1, sc]
      by_cases hw : Run.inside acc.1.cma_virt_start acc.1.cma_virt_end
          { start_address := st.start_address, end_address := addr,
            level := st.level, prot := st.current_prot } = true <;>
        by_cases hh : ((chosen_label st.current_prot b).isSome && cache_val c b.val) = true <;>
        simp only [hw, hh, true_and, false_and, if_true, if_false, ulong_add, hM,
          one_mul, zero_mul, add_zero, zero_add, Bool.false_eq_true]
      all_goals omega
    · intro h0
      apply hc2
      rw [sc]
      split_ifs
      · exact hlt _ _
      · exact h0
    · rw [hb1, sb]
      by_cases hw : Run.inside acc.1.cma_virt_start acc.1.cma_virt_end
          { start_address := st.start_address, end_address := addr,
            level := st.level, prot := st.current_prot } = true <;>
        by_cases hh : ((chosen_label st.current_prot b).isSome && buffer_val c b.val) = true <;>
        simp only [hw, hh, true_and, false_and, if_true, if_false, ulong_add, hM,
          one_mul, zero_mul, add_zero, zero_add, Bool.false_eq_true]
      all_goals omega
    · intro h0
      apply hb2
      rw [sb]
      split_ifs
      · exact hlt _ _
      · exact h0

theorem call_dump_prot_counters (c : Consts) (g : Globals) (st : pg_state) (sl : pg_level)
    (addr : Nat) :
    ((call_dump_prot c g st sl addr).1.cache_type % ULONG_MOD =
      (g.cache_type +
        (if Run.inside g.cma_virt_start g.cma_virt_end
            { start_address := st.start_address, end_address := addr,
              level := st.level, prot := st.current_prot } = true then
          hits (cache_val c) st.current_prot (sl.bits.getD []) *
            ulong_sub addr st.start_address
        else 0)) % ULONG_MOD ∧
     (g.cache_type < ULONG_MOD →
       (call_dump_prot c g st sl addr).1.cache_type < ULONG_MOD)) ∧
    ((call_dump_prot c g st sl addr).1.buffer_type % ULONG_MOD =
      (g.buffer_type +
        (if Run.inside g.cma_virt_start g.cma_virt_end
            { start_address := st.start_address, end_address := addr,
              level := st.level, prot := st.current_prot } = true then
          hits (buffer_val c) st.current_prot (sl.bits.getD []) *
            ulong_sub addr st.start_address
        else 0)) % ULONG_MOD ∧
     (g.buffer_type < ULONG_MOD →
       (call_dump_prot c g st sl addr).1.buffer_type < ULONG_MOD)) := by
  unfold call_dump_prot
  cases sl.bits with
  | none => simp [hits]
  | some bits => exact dump_prot_fold_counters c st addr bits (g, [])

theorem close_line_globals (c : Consts) (g g1 : Globals) (st : pg_state) (addr : Nat)
    (line : List Out) (hprot : st.current_prot ≠ 0)
    (h : close_line c g st addr = some (g1, line)) :
    ∃ sl, g.pg_level[st.level]? = some sl ∧ g1 = (call_dump_prot c g st sl addr).1 := by
  unfold close_line at h
  rw [if_pos hprot] at h
  cases hsl : g.pg_level[st.level]? with
  | none => simp [hsl] at h
  | some sl =>
    simp only [hsl, Option.some.injEq, Prod.mk.injEq] at h
    exact ⟨sl, rfl, h.1.symm⟩

theorem inside_total_nil (sel : Nat → Bool) (levels : List pg_level) (ws we : Nat) :
    inside_total sel levels ws we [] = 0 := rfl

theorem inside_total_append (sel : Nat → Bool) (levels : List pg_level) (ws we : Nat)
    (a b : List Run) :
    inside_total sel levels ws we (a ++ b) =
      inside_total sel levels ws we a + inside_total sel levels ws we b := by
  simp [inside_total]

theorem inside_total_single (sel : Nat → Bool) (levels : List pg_level) (ws we : Nat)
    (r : Run) :
    inside_total sel levels ws we [r] =
      if Run.inside ws we r = true then
        hits sel r.prot (r.bits levels) * ulong_sub r.end_address r.start_address
      else 0 := by
  unfold inside_total
  by_cases h : Run.inside ws we r = true
  · simp [h]
  · simp [h]

/-- The effect of one `note_page` call on the globals: everything but the two
counters is kept, and each counter grows, modulo `2 ^ 32`, by the contribution of the
run that the call closes. -/
theorem note_page_counters (c : Consts) (g g1 : Globals) (st st1 : pg_state)
    (addr level val : Nat) (out1 : List Out)
    (h : note_page c g st addr level val = some (g1, st1, out1)) :
    (g1.temp_flag = g.temp_flag ∧ g1.address_markers = g.address_markers ∧
      g1.pg_level = g.pg_level ∧ g1.cma_virt_start = g.cma_virt_start ∧
      g1.cma_virt_end = g.cma_virt_end) ∧
    (g1.cache_type % ULONG_MOD =
      (g.cache_type + inside_total (cache_val c) g.pg_level g.cma_virt_start
        g.cma_virt_end
        (closed_run c g st { addr := addr, level := level, val := val }).toList) %
        ULONG_MOD ∧
     (g.cache_type < ULONG_MOD → g1.cache_type < ULONG_MOD)) ∧
    (g1.buffer_type % ULONG_MOD =
      (g.buffer_type + inside_total (buffer_val c) g.pg_level g.cma_virt_start
        g.cma_virt_end
        (closed_run c g st { addr := addr, level := level, val := val }).toList) %
        ULONG_MOD ∧
     (g.buffer_type < ULONG_MOD → g1.buffer_type < ULONG_MOD)) := by
  have hsame : ∀ (hg : g1 = g)
      (hr : closed_run c g st { addr := addr, level := level, val := val } = none),
      (g1.temp_flag = g.temp_flag ∧ g1.address_markers = g.address_markers ∧
        g1.pg_level = g.pg_level ∧ g1.cma_virt_start = g.cma_virt_start ∧
        g1.cma_virt_end = g.cma_virt_end) ∧
      (g1.cache_type % ULONG_MOD =
        (g.cache_type + inside_total (cache_val c) g.pg_level g.cma_virt_start
          g.cma_virt_end
          (closed_run c g st { addr := addr, level := level, val := val }).toList) %
          ULONG_MOD ∧
       (g.cache_type < ULONG_MOD → g1.cache_type < ULONG_MOD)) ∧
      (g1.buffer_type % ULONG_MOD =
        (g.buffer_type + inside_total (buffer_val c) g.pg_level g.cma_virt_start
          g.cma_virt_end
          (closed_run c g st { addr := addr, level := level, val := val }).toList) %
          ULONG_MOD ∧
       (g.buffer_type < ULONG_MOD → g1.buffer_type < ULONG_MOD)) := by
    intro hg hr
    subst hg
    rw [hr]
    simp [inside_total_nil]
  cases hpl : g.pg_level[level]? with
  | none => simp [note_page, hpl] at h
  | some pl =>
    by_cases hlow : addr < c.USER_PGTABLES_CEILING
    · rw [note_page_below_ceiling c g st addr level val pl hpl hlow] at h
      simp only [Option.some.injEq, Prod.mk.injEq] at h
      apply hsame h.1.symm
      unfold closed_run
      simp only [hpl]
      cases g.address_markers[st.marker + 1]? with
      | none => rfl
      | some m1 =>
        have : ¬ c.USER_PGTABLES_CEILING ≤ addr := by omega
        simp [this]
    · by_cases hlev : st.level = 0
      · have hg : g1 = g := by
          simp only [note_page, hpl, if_neg hlow, if_pos hlev] at h
          by_cases hf : g.temp_flag = 0
          · simp [hf] at h
            exact h.1.symm
          · simp only [ne_eq, hf, not_false_eq_true, if_true] at h
            cases hm : g.address_markers[st.marker]? with
            | none => simp [hm] at h
            | some m =>
              simp only [hm, Option.some.injEq, Prod.mk.injEq] at h
              exact h.1.symm
        apply hsame hg
        unfold closed_run
        simp only [hpl]
        cases g.address_markers[st.marker + 1]? with
        | none => rfl
        | some m1 => simp [hlev]
      · cases hm1 : g.address_markers[st.marker + 1]? with
        | none => simp [note_page, hpl, hlow, hlev, hm1] at h
        | some m1 =>
          have hceil : c.USER_PGTABLES_CEILING ≤ addr := by omega
          by_cases hcond : val &&& pl.mask ≠ st.current_prot ∨ level ≠ st.level ∨
              addr ≥ m1.start_address
          · cases hline : close_line c g st addr with
            | none =>
              simp only [note_page, hpl, if_neg hlow, if_neg hlev, hm1, if_pos hcond,
                hline] at h
              exact absurd h (by simp)
            | some r =>
              obtain ⟨g2, line⟩ := r
              rw [note_page_close c g st addr level val pl m1 g2 line hlev hceil hpl hm1
                hcond hline] at h
              simp only [Option.some.injEq, Prod.mk.injEq] at h
              have hg : g1 = g2 := h.1.symm
              by_cases hp : st.current_prot = 0
              · rw [close_line_zero c g st addr hp] at hline
                simp only [Option.some.injEq, Prod.mk.injEq] at hline
                apply hsame (hg.trans hline.1.symm)
                unfold closed_run
                simp [hpl, hm1, hp]
              · obtain ⟨sl, hsl, hg2⟩ := close_line_globals c g g2 st addr line hp hline
                have hr : closed_run c g st { addr := addr, level := level, val := val } =
                    some { start_address := st.start_address, end_address := addr,
                           level := st.level, prot := st.current_prot } := by
                  unfold closed_run
                  simp only [hpl, hm1]
                  rw [if_pos ⟨hceil, hlev, hp, hcond⟩]
                rw [hr, hg, hg2]
                simp only [Option.toList, inside_total_single, Run.bits, hsl]
                exact ⟨call_dump_prot_frame c g st sl addr,
                  call_dump_prot_counters c g st sl addr⟩
          · rw [note_page_continue c g st addr level val pl m1 hlev hceil hpl hm1
              hcond] at h
            simp only [Option.some.injEq, Prod.mk.injEq] at h
            apply hsame h.1.symm
            unfold closed_run
            simp only [hpl, hm1]
            rw [if_neg]
            intro hh
            exact hcond hh.2.2.2

/-- The effect of a sequence of `note_page` calls on the globals. -/
theorem note_pages_counters (c : Consts) (calls : List Call) :
    ∀ (g g2 : Globals) (st st2 : pg_state) (out : List Out),
    note_pages c g st calls = some (g2, st2, out) →
    (g2.temp_flag = g.temp_flag ∧ g2.address_markers = g.address_markers ∧
      g2.pg_level = g.pg_level ∧ g2.cma_virt_start = g.cma_virt_start ∧
      g2.cma_virt_end = g.cma_virt_end) ∧
    (g2.cache_type % ULONG_MOD =
      (g.cache_type + inside_total (cache_val c) g.pg_level g.cma_virt_start
        g.cma_virt_end (closed_runs c g st calls)) % ULONG_MOD ∧
     (g.cache_type < ULONG_MOD → g2.cache_type < ULONG_MOD)) ∧
    (g2.buffer_type % ULONG_MOD =
      (g.buffer_type + inside_total (buffer_val c) g.pg_level g.cma_virt_start
        g.cma_virt_end (closed_runs c g st calls)) % ULONG_MOD ∧
     (g.buffer_type < ULONG_MOD → g2.buffer_type < ULONG_MOD)) := by
  induction calls with
  | nil =>
    intro g g2 st st2 out h
    simp only [note_pages, Option.some.injEq, Prod.mk.injEq] at h
    obtain ⟨hg, _, _⟩ := h
    subst hg
    simp [closed_runs, inside_total_nil]
  | cons k ks ih =>
    intro g g2 st st2 out h
    obtain ⟨a, l, v⟩ := k
    cases h1 : note_page c g st a l v with
    | none => simp [note_pages, h1] at h
    | some r1 =>
      obtain ⟨g1, st1, out1⟩ := r1
      cases h2 : note_pages c g1 st1 ks with
      | none => simp [note_pages, h1, h2] at h
      | some r2 =>
        obtain ⟨g3, st3, out3⟩ := r2
        simp only [note_pages, h1, h2, Option.some.injEq, Prod.mk.injEq] at h
        obtain ⟨hg, _, _⟩ := h
        subst hg
        obtain ⟨⟨f1, f2, f3, f4, f5⟩, ⟨c1, c2⟩, ⟨b1, b2⟩⟩ :=
          note_page_counters c g g1 st st1 a l v out1 h1
        obtain ⟨⟨e1, e2, e3, e4, e5⟩, ⟨c3, c4⟩, ⟨b3, b4⟩⟩ := ih g1 g3 st1 st3 out3 h2
        rw [f3, f4, f5] at c3 b3
        have hruns : closed_runs c g st ({ addr := a, level := l, val := v } :: ks) =
            (closed_run c g st { addr := a, level := l, val := v }).toList ++
              closed_runs c g1 st1 ks := by
          simp only [closed_runs, h1]
        have hM : ULONG_MOD = 4294967296 := rfl
        rw [hruns, inside_total_append, inside_total_append]
        rw [hM] at c1 c3 b1 b3 ⊢
        refine ⟨⟨e1.trans f1, e2.trans f2, e3.trans f3, e4.trans f4, e5.trans f5⟩,
          ⟨?_, fun h0 => c4 (c2 h0)⟩, ⟨?_, fun h0 => b4 (b2 h0)⟩⟩
        · omega
        · omega

/-- C9, as stated, fails: a write-back run `[0xbf000000, 0xbf002000)` that overlaps
the window `[0xbf001000, 0xbf004000)` only partly is the single closed run of the
walk; the clipped overlap is `4096` bytes, but the cacheable counter stays `0`. -/
theorem partial_overlap_not_counted :
    (note_pages (arm_consts 0) (walk_pgd_init (arm_globals 0 0 0xbf001000 0xbf004000))
        pg_state_init
        [{ addr := 0, level := 4, val := 0 },
         { addr := 0xbf000000, level := 4, val := 0x8f00140f },
         { addr := 0xbf002000, level := 4, val := 0 },
         { addr := 0, level := 0, val := 0 }]).map (fun r => r.1.cache_type) = some 0 ∧
    closed_runs (arm_consts 0) (walk_pgd_init (arm_globals 0 0 0xbf001000 0xbf004000))
        pg_state_init
        [{ addr := 0, level := 4, val := 0 },
         { addr := 0xbf000000, level := 4, val := 0x8f00140f },
         { addr := 0xbf002000, level := 4, val := 0 },
         { addr := 0, level := 0, val := 0 }] =
      [{ start_address := 0xbf000000, end_address := 0xbf002000, level := 4,
         prot := 0x40c }] ∧
    clipped_total (cache_val (arm_consts 0))
        (arm_globals 0 0 0xbf001000 0xbf004000).pg_level 0xbf001000 0xbf004000
        [{ start_address := 0xbf000000, end_address := 0xbf002000, level := 4,
           prot := 0x40c }] = 4096 ∧
    (0 : Nat) ≠ 4096 := by
  refine ⟨by rfl, by rfl, by rfl, by decide⟩

/-- C9 as amended: after the calls of a walk that starts from the fresh walk state
with both counters reset, the cacheable counter equals, modulo `2 ^ 32`, the sum over
the closed runs with non-zero attributes whose start and end both lie in the window
(`virt_start <= start < virt_end` and `virt_start < end <= virt_end`) of the full
length `end - start` of the run, taken once for each decoder table entry of the level
of the run whose chosen label is present and whose `val` is one of the cacheable
memory types; likewise the bufferable counter with the bufferable memory type. Runs
that overlap the window only partly add nothing. -/
theorem counters_sum_runs_inside_window (c : Consts) (g g2 : Globals) (st2 : pg_state)
    (calls : List Call) (out : List Out)
    (hwalk : note_pages c (walk_pgd_init g) pg_state_init calls = some (g2, st2, out)) :
    g2.cache_type =
      inside_total (cache_val c) g.pg_level g.cma_virt_start g.cma_virt_end
        (closed_runs c (walk_pgd_init g) pg_state_init calls) % ULONG_MOD ∧
    g2.buffer_type =
      inside_total (buffer_val c) g.pg_level g.cma_virt_start g.cma_virt_end
        (closed_runs c (walk_pgd_init g) pg_state_init calls) % ULONG_MOD := by
  obtain ⟨_, ⟨c1, c2⟩, ⟨b1, b2⟩⟩ :=
    note_pages_counters c calls (walk_pgd_init g) g2 pg_state_init st2 out hwalk
  have hM : ULONG_MOD = 4294967296 := rfl
  have e1 : (walk_pgd_init g).cache_type = 0 := rfl
  have e2 : (walk_pgd_init g).buffer_type = 0 := rfl
  have hc : g2.cache_type < ULONG_MOD := c2 (by rw [e1, hM]; decide)
  have hb : g2.buffer_type < ULONG_MOD := b2 (by rw [e2, hM]; decide)
  have e3 : (walk_pgd_init g).pg_level = g.pg_level := rfl
  have e4 : (walk_pgd_init g).cma_virt_start = g.cma_virt_start := rfl
  have e5 : (walk_pgd_init g).cma_virt_end = g.cma_virt_end := rfl
  rw [e1, e3, e4, e5, Nat.zero_add, Nat.mod_eq_of_lt hc] at c1
  rw [e2, e3, e4, e5, Nat.zero_add, Nat.mod_eq_of_lt hb] at b1
  exact ⟨c1, b1⟩

/-- Witness of C9 as amended: a write-back run inside the window and an unmapped rest;
the cacheable counter holds the `8192` bytes of the run. -/
theorem counters_sum_runs_inside_window_witness :
    note_pages (arm_consts 0) (walk_pgd_init (arm_globals 0 0 0xbf000000 0xbf004000))
        pg_state_init
        [{ addr := 0, level := 4, val := 0 },
         { addr := 0xbf000000, level := 4, val := 0x8f00140f },
         { addr := 0xbf002000, level := 4, val := 0 },
         { addr := 0, level := 0, val := 0 }] =
      some ({ arm_globals 0 0 0xbf000000 0xbf004000 with cache_type := 8192 },
        { marker := 0, start_address := 0, level := 0, current_prot := 0 }, []) ∧
    (8192 : Nat) =
      inside_total (cache_val (arm_consts 0))
        (arm_globals 0 0 0xbf000000 0xbf004000).pg_level 0xbf000000 0xbf004000
        (closed_runs (arm_consts 0)
          (walk_pgd_init (arm_globals 0 0 0xbf000000 0xbf004000)) pg_state_init
          [{ addr := 0, level := 4, val := 0 },
           { addr := 0xbf000000, level := 4, val := 0x8f00140f },
           { addr := 0xbf002000, level := 4, val := 0 },
           { addr := 0, level := 0, val := 0 }]) % ULONG_MOD :=
  ⟨by rfl,
   (counters_sum_runs_inside_window (arm_consts 0) (arm_globals 0 0 0xbf000000 0xbf004000)
      { arm_globals 0 0 0xbf000000 0xbf004000 with cache_type := 8192 }
      { marker := 0, start_address := 0, level := 0, current_prot := 0 }
      [{ addr := 0, level := 4, val := 0 },
       { addr := 0xbf000000, level := 4, val := 0x8f00140f },
       { addr := 0xbf002000, level := 4, val := 0 },
       { addr := 0, level := 0, val := 0 }] [] (by rfl)).1⟩

/-- C10 (low-address ceiling), evaluated on the code: with a ceiling of `0xbf000000`,
the first page at the ceiling mapped write-back and the next page unmapped, the range
line printed in reporting mode starts at `0`, below the ceiling, because the first run
keeps the start address left by `memset`; with the window `[0, 0xc0000000)` the same
run, recorded as starting at `0`, adds `0xbf001000` bytes to the cacheable counter of
a silent walk. -/
theorem first_range_starts_below_ceiling :
    note_pages (arm_consts 0xbf000000) (walk_pgd_init (arm_globals 0xbf000000 1 0 0))
        pg_state_init
        [{ addr := 0xbf000000, level := 4, val := 0x8f00140f },
         { addr := 0xbf001000, level := 4, val := 0 }] =
      some (arm_globals 0xbf000000 1 0 0,
        { marker := 0, start_address := 0xbf001000, level := 4, current_prot := 0 },
        [Out.header (some "Modules"), Out.range 0 0xbf001000, Out.size 3129348 'K',
         Out.prot "   ", Out.prot "RW", Out.prot "x ", Out.prot "SHD",
         Out.prot "MEM/CACHED/WBRA", Out.newline]) ∧
    (0 : Nat) < (arm_consts 0xbf000000).USER_PGTABLES_CEILING ∧
    (note_pages (arm_consts 0xbf000000)
        (walk_pgd_init (arm_globals 0xbf000000 0 0 0xc0000000)) pg_state_init
        [{ addr := 0xbf000000, level := 4, val := 0x8f00140f },
         { addr := 0xbf001000, level := 4, val := 0 }]).map
      (fun r => (r.1.cache_type, r.2.2)) = some (0xbf001000, []) := by
  refine ⟨by rfl, by decide, by rfl⟩

/-! ## Claims on the final call and on the accumulation rule -/

/-- C11 (final flush), evaluated on the code: with a ceiling of `0xbf000000` and a
write-back page mapped at the ceiling, the run opened by the first call is still open
when the loop ends; the final call `note_page(&st, 0, 0, 0)` has an address below the
ceiling and returns at once, so the walk prints the header only, the run stays open
and no range line is printed for it. -/
theorem final_call_below_ceiling_no_flush :
    note_page (arm_consts 0xbf000000) (arm_globals 0xbf000000 1 0 0)
        { marker := 0, start_address := 0, level := 4, current_prot := 0x40c } 0 0 0 =
      some (arm_globals 0xbf000000 1 0 0,
        { marker := 0, start_address := 0, level := 4, current_prot := 0x40c }, []) ∧
    note_pages (arm_consts 0xbf000000) (walk_pgd_init (arm_globals 0xbf000000 1 0 0))
        pg_state_init
        [{ addr := 0xbf000000, level := 4, val := 0x8f00140f },
         { addr := 0, level := 0, val := 0 }] =
      some (arm_globals 0xbf000000 1 0 0,
        { marker := 0, start_address := 0, level := 4, current_prot := 0x40c },
        [Out.header (some "Modules")]) := by
  refine ⟨by rfl, by rfl⟩

/-- With a ceiling of `0` the final call `note_page(&st, 0, 0, 0)` closes an open run:
its level `0` differs from the level of the run. -/
theorem final_call_closes_run_ceiling_zero (c : Consts) (g : Globals) (st : pg_state)
    (pl sl : pg_level) (m1 : addr_marker)
    (hzero : c.USER_PGTABLES_CEILING = 0) (hopen : st.level ≠ 0)
    (hpl : g.pg_level[0]? = some pl) (hsl : g.pg_level[st.level]? = some sl)
    (hm1 : g.address_markers[st.marker + 1]? = some m1) :
    ∃ g1 st1 out, note_page c g st 0 0 0 = some (g1, st1, out) ∧
      st1.level = 0 ∧ st1.start_address = 0 ∧
      range_tokens out =
        if st.current_prot ≠ 0 ∧ g.temp_flag ≠ 0 then [Out.range st.start_address 0]
        else [] := by
  obtain ⟨g1, line, hline, _, hrt⟩ := close_line_range_tokens c g st 0 sl hsl
  have hclose := note_page_close c g st 0 0 0 pl m1 g1 line hopen (by omega) hpl hm1
    (Or.inr (Or.inl (fun h => hopen h.symm))) hline
  refine ⟨g1, _, _, hclose, rfl, rfl, ?_⟩
  rw [range_tokens_append, hrt]
  by_cases hx : 0 ≥ m1.start_address
  · rw [if_pos hx, range_tokens_print_header, List.append_nil]
  · rw [if_neg hx]
    simp [range_tokens]

/-- The counters after the loop of `dump_prot`: when the run passes the window test,
the length of the run is added once for every table entry that is counted. -/
theorem dump_prot_fold_counters_exact (c : Consts) (st : pg_state) (addr : Nat)
    (bits : List prot_bits) : ∀ acc : Globals × List Out,
    (bits.foldl (dump_prot_step c st addr) acc).1.cache_type =
      (if Run.inside acc.1.cma_virt_start acc.1.cma_virt_end
            { start_address := st.start_address, end_address := addr,
              level := st.level, prot := st.current_prot } = true then
        Nat.iterate (fun x => ulong_add x (ulong_sub addr st.start_address))
          (hits (cache_val c) st.current_prot bits) acc.1.cache_type
      else acc.1.cache_type) ∧
    (bits.foldl (dump_prot_step c st addr) acc).1.buffer_type =
      (if Run.inside acc.1.cma_virt_start acc.1.cma_virt_end
            { start_address := st.start_address, end_address := addr,
              level := st.level, prot := st.current_prot } = true then
        Nat.iterate (fun x => ulong_add x (ulong_sub addr st.start_address))
          (hits (buffer_val c) st.current_prot bits) acc.1.buffer_type
      else acc.1.buffer_type) := by
  induction bits with
  | nil => intro acc; simp [hits]
  | cons b t ih =>
    intro acc
    rw [List.foldl_cons]
    obtain ⟨hc, hb⟩ := ih (dump_prot_step c st addr acc b)
    obtain ⟨_, _, _, hws, hwe⟩ := dump_prot_step_frame c st addr acc b
    obtain ⟨sc, sb⟩ := dump_prot_step_counters c st addr acc b
    rw [hws, hwe] at hc hb
    rw [hc, hb, sc, sb, hits_cons, hits_cons]
    by_cases hw : Run.inside acc.1.cma_virt_start acc.1.cma_virt_end
        { start_address := st.start_address, end_address := addr,
          level := st.level, prot := st.current_prot } = true
    · simp only [hw, true_and, if_true]
      constructor
      · by_cases hh : ((chosen_label st.current_prot b).isSome && cache_val c b.val) = true
        · simp only [hh, if_true]
          rw [Nat.add_comm, Function.iterate_succ_apply]
        · simp only [hh, if_false, Nat.zero_add, Bool.false_eq_true]
      · by_cases hh : ((chosen_label st.current_prot b).isSome && buffer_val c b.val) = true
        · simp only [hh, if_true]
          rw [Nat.add_comm, Function.iterate_succ_apply]
        · simp only [hh, if_false, Nat.zero_add, Bool.false_eq_true]
    · simp only [hw, false_and, if_false, Bool.false_eq_true]
      exact ⟨trivial, trivial⟩

/-- C13, as stated, fails: a reporting-mode call of `dump_prot` for a write-back run
`[0x1000, 0x2000)` inside the window `[0, 0x4000)` raises the cacheable counter from
`0` to `4096`. -/
theorem reporting_call_accumulates :
    (arm_globals 0 1 0 0x4000).temp_flag ≠ 0 ∧
    (arm_globals 0 1 0 0x4000).cache_type = 0 ∧
    (dump_prot (arm_consts 0) (arm_globals 0 1 0 0x4000)
        { marker := 0, start_address := 0x1000, level := 4, current_prot := 0x40c }
        (pte_bits (arm_consts 0)) 0x2000).1.cache_type = 4096 := by
  refine ⟨by decide, by rfl, by rfl⟩

/-- C13 as amended: the accumulation of `dump_prot` does not depend on `temp_flag`. A
reporting-mode call changes the two counters exactly as the call with `temp_flag = 0`
does, and it leaves both unchanged when the run fails the window test
(`virt_start <= start < virt_end` and `virt_start < end <= virt_end`). -/
theorem dump_prot_counters_any_mode (c : Consts) (g : Globals) (st : pg_state)
    (bits : List prot_bits) (addr : Nat) :
    ((dump_prot c g st bits addr).1.cache_type =
        (dump_prot c { g with temp_flag := 0 } st bits addr).1.cache_type ∧
      (dump_prot c g st bits addr).1.buffer_type =
        (dump_prot c { g with temp_flag := 0 } st bits addr).1.buffer_type) ∧
    (¬ (st.start_address ≥ g.cma_virt_start ∧ st.start_address < g.cma_virt_end ∧
        addr > g.cma_virt_start ∧ addr ≤ g.cma_virt_end) →
      (dump_prot c g st bits addr).1.cache_type = g.cache_type ∧
      (dump_prot c g st bits addr).1.buffer_type = g.buffer_type) := by
  obtain ⟨h1, h2⟩ := dump_prot_fold_counters_exact c st addr bits (g, [])
  obtain ⟨h3, h4⟩ := dump_prot_fold_counters_exact c st addr bits
    ({ g with temp_flag := 0 }, [])
  refine ⟨⟨?_, ?_⟩, ?_⟩
  · unfold dump_prot
    rw [h1, h3]
  · unfold dump_prot
    rw [h2, h4]
  · intro hout
    have hw : ¬ Run.inside g.cma_virt_start g.cma_virt_end
        { start_address := st.start_address, end_address := addr,
          level := st.level, prot := st.current_prot } = true := by
      simpa [Run.inside] using hout
    unfold dump_prot
    rw [h1, h2, if_neg hw, if_neg hw]
    exact ⟨rfl, rfl⟩

theorem hits_append (sel : Nat → Bool) (prot : Nat) (a b : List prot_bits) :
    hits sel prot (a ++ b) = hits sel prot a + hits sel prot b := by
  simp [hits]

/-- Entries of the form of the memory-type entries of `pte_bits` (a common mask, a
`set` label and no `clear` label) are counted when their value is the masked attribute
value and is selected. -/
theorem hits_mt_entries (sel : Nat → Bool) (prot mask : Nat) (l : List prot_bits)
    (hl : ∀ b ∈ l, b.mask = mask ∧ b.set.isSome = true ∧ b.clear = none) :
    hits sel prot l =
      ((l.map prot_bits.val).filter
        (fun v => decide (prot &&& mask = v) && sel v)).length := by
  induction l with
  | nil => rfl
  | cons b t ih =>
    rw [hits_cons, ih (fun x hx => hl x (List.mem_cons_of_mem b hx)), List.map_cons,
      List.filter_cons]
    obtain ⟨h1, h2, h3⟩ := hl b (List.mem_cons_self b t)
    have hlab : (chosen_label prot b).isSome = decide (prot &&& mask = b.val) := by
      unfold chosen_label
      rw [h1]
      by_cases hv : prot &&& mask = b.val
      · simp [hv, h2]
      · simp [hv, h3]
    rw [hlab]
    by_cases hc : (decide (prot &&& mask = b.val) && sel b.val) = true
    · rw [if_pos hc, if_pos hc, List.length_cons]
      omega
    · rw [if_neg hc, if_neg hc]
      omega

/-- In a list without repetitions at most the masked value itself is counted. -/
theorem count_selected (sel : Nat → Bool) (m : Nat) (vals : List Nat)
    (hd : vals.Nodup) (hsel : sel m = true → m ∈ vals) :
    (vals.filter (fun v => decide (m = v) && sel v)).length =
      if sel m = true then 1 else 0 := by
  have hfilter : vals.filter (fun v => decide (m = v) && sel v) =
      if sel m = true then vals.filter (fun v => decide (v = m)) else [] := by
    by_cases hs : sel m = true
    · rw [if_pos hs]
      apply List.filter_congr
      intro v _
      by_cases hv : m = v
      · subst hv; simp [hs]
      · have hv2 : ¬ v = m := fun h => hv h.symm
        simp [hv, hv2]
    · rw [if_neg hs]
      apply List.filter_eq_nil_iff.mpr
      intro v _
      by_cases hv : m = v
      · subst hv; simp [hs]
      · simp [hv]
  rw [hfilter]
  by_cases hs : sel m = true
  · rw [if_pos hs, if_pos hs]
    have hcount : vals.count m = 1 := List.count_eq_one_of_mem hd (hsel hs)
    rw [List.count_eq_countP, List.countP_eq_length_filter] at hcount
    rw [← hcount]
    congr 1
  · rw [if_neg hs, if_neg hs]
    rfl

/-- The number of counted entries of `pte_bits` for a run, when the memory-type values
are pairwise distinct and differ from the flag-bit values: one if the memory type of
the run is selected, none otherwise. -/
theorem hits_pte_bits (c : Consts) (sel : Nat → Bool) (prot : Nat)
    (hd : (mt_values c).Nodup) (hf : ∀ f ∈ flag_values c, f ∉ mt_values c)
    (hsel : ∀ v, sel v = true → v ∈ mt_values c) :
    hits sel prot (pte_bits c) =
      (if sel (prot &&& c.L_PTE_MT_MASK) = true then 1 else 0) := by
  have hsplit : pte_bits c = (pte_bits c).take 4 ++ (pte_bits c).drop 4 :=
    (List.take_append_drop 4 (pte_bits c)).symm
  have hflagsel : ∀ f ∈ flag_values c, sel f = false := by
    intro f hfm
    cases hs : sel f with
    | false => rfl
    | true => exact absurd (hsel f hs) (hf f hfm)
  have e1 := hflagsel c.L_PTE_USER (by simp [flag_values])
  have e2 := hflagsel c.L_PTE_RDONLY (by simp [flag_values])
  have e3 := hflagsel c.L_PTE_XN (by simp [flag_values])
  have e4 := hflagsel c.L_PTE_SHARED (by simp [flag_values])
  have hflags : hits sel prot ((pte_bits c).take 4) = 0 := by
    simp [pte_bits, hits, List.filter_cons, e1, e2, e3, e4]
  have hmts : hits sel prot ((pte_bits c).drop 4) =
      ((((pte_bits c).drop 4).map prot_bits.val).filter
        (fun v => decide (prot &&& c.L_PTE_MT_MASK = v) && sel v)).length := by
    apply hits_mt_entries
    intro b hb
    simp only [pte_bits, List.drop_succ_cons, List.drop_zero, List.mem_cons,
      List.mem_singleton, List.not_mem_nil, or_false] at hb
    rcases hb with h | h | h | h | h | h | h | h | h | h <;> subst h <;>
      exact ⟨rfl, rfl, rfl⟩
  have hvals : ((pte_bits c).drop 4).map prot_bits.val = mt_values c := rfl
  rw [hsplit, hits_append, hflags, hmts, hvals, Nat.zero_add,
    count_selected sel (prot &&& c.L_PTE_MT_MASK) (mt_values c) hd
      (hsel (prot &&& c.L_PTE_MT_MASK))]

theorem ulong_sub_of_le (a b : Nat) (hle : b ≤ a) (hlt : a < ULONG_MOD) :
    ulong_sub a b = a - b := by
  have hM : ULONG_MOD = 4294967296 := rfl
  unfold ulong_sub
  rw [hM] at hlt ⊢
  omega

theorem cache_val_mem (c : Consts) (v : Nat) (h : cache_val c v = true) :
    v ∈ mt_values c := by
  simp only [cache_val, decide_eq_true_eq] at h
  rcases h with h | h | h | h | h <;> simp [mt_values, h]

theorem buffer_val_mem (c : Consts) (v : Nat) (h : buffer_val c v = true) :
    v ∈ mt_values c := by
  simp only [buffer_val, decide_eq_true_eq] at h
  simp [mt_values, h]

/-- C17 (accumulation rule of the decoder): for a leaf-level run `[start, end)` and a
window `[virt_start, virt_end)`, with memory-type values that are pairwise distinct
and differ from the flag-bit values, `dump_prot` on `pte_bits` changes a counter only
if `virt_start <= start < virt_end` and `virt_start < end <= virt_end`. In that case it
adds `end - start` (an `unsigned long` difference, equal to the plain difference for
`start <= end`) exactly once: to the cacheable counter when the memory type of the run
is write-through, write-back, minicache, cached device or write-allocate, to the
bufferable counter when it is bufferable, and to neither otherwise. -/
theorem dump_prot_accumulation_rule (c : Consts) (g : Globals) (st : pg_state)
    (addr : Nat) (hd : (mt_values c).Nodup)
    (hf : ∀ f ∈ flag_values c, f ∉ mt_values c) :
    (dump_prot c g st (pte_bits c) addr).1.cache_type =
      (if (st.start_address ≥ g.cma_virt_start ∧ st.start_address < g.cma_virt_end ∧
            addr > g.cma_virt_start ∧ addr ≤ g.cma_virt_end) ∧
          (st.current_prot &&& c.L_PTE_MT_MASK = c.L_PTE_MT_WRITETHROUGH ∨
            st.current_prot &&& c.L_PTE_MT_MASK = c.L_PTE_MT_WRITEBACK ∨
            st.current_prot &&& c.L_PTE_MT_MASK = c.L_PTE_MT_MINICACHE ∨
            st.current_prot &&& c.L_PTE_MT_MASK = c.L_PTE_MT_DEV_CACHED ∨
            st.current_prot &&& c.L_PTE_MT_MASK = c.L_PTE_MT_WRITEALLOC) then
        ulong_add g.cache_type (ulong_sub addr st.start_address)
      else g.cache_type) ∧
    (dump_prot c g st (pte_bits c) addr).1.buffer_type =
      (if (st.start_address ≥ g.cma_virt_start ∧ st.start_address < g.cma_virt_end ∧
            addr > g.cma_virt_start ∧ addr ≤ g.cma_virt_end) ∧
          st.current_prot &&& c.L_PTE_MT_MASK = c.L_PTE_MT_BUFFERABLE then
        ulong_add g.buffer_type (ulong_sub addr st.start_address)
      else g.buffer_type) ∧
    (st.start_address ≤ addr → addr < ULONG_MOD →
      ulong_sub addr st.start_address = addr - st.start_address) := by
  obtain ⟨h1, h2⟩ := dump_prot_fold_counters_exact c st addr (pte_bits c) (g, [])
  have hc := hits_pte_bits c (cache_val c) st.current_prot hd hf (cache_val_mem c)
  have hb := hits_pte_bits c (buffer_val c) st.current_prot hd hf (buffer_val_mem c)
  refine ⟨?_, ?_, fun hle hlt => ulong_sub_of_le addr st.start_address hle hlt⟩
  · unfold dump_prot
    rw [h1, hc]
    simp only [Run.inside, cache_val, decide_eq_true_eq]
    by_cases hw : st.start_address ≥ g.cma_virt_start ∧
        st.start_address < g.cma_virt_end ∧
        addr > g.cma_virt_start ∧ addr ≤ g.cma_virt_end
    · by_cases hm : st.current_prot &&& c.L_PTE_MT_MASK = c.L_PTE_MT_WRITETHROUGH ∨
          st.current_prot &&& c.L_PTE_MT_MASK = c.L_PTE_MT_WRITEBACK ∨
          st.current_prot &&& c.L_PTE_MT_MASK = c.L_PTE_MT_MINICACHE ∨
          st.current_prot &&& c.L_PTE_MT_MASK = c.L_PTE_MT_DEV_CACHED ∨
          st.current_prot &&& c.L_PTE_MT_MASK = c.L_PTE_MT_WRITEALLOC
      · rw [if_pos hw, if_pos hm, if_pos ⟨hw, hm⟩]
        rfl
      · rw [if_pos hw, if_neg hm, if_neg (fun h => hm h.2)]
        rfl
    · rw [if_neg hw, if_neg (fun h => hw h.1)]
  · unfold dump_prot
    rw [h2, hb]
    simp only [Run.inside, buffer_val, decide_eq_true_eq]
    by_cases hw : st.start_address ≥ g.cma_virt_start ∧
        st.start_address < g.cma_virt_end ∧
        addr > g.cma_virt_start ∧ addr ≤ g.cma_virt_end
    · by_cases hm : st.current_prot &&& c.L_PTE_MT_MASK = c.L_PTE_MT_BUFFERABLE
      · rw [if_pos hw, if_pos hm, if_pos ⟨hw, hm⟩]
        rfl
      · rw [if_pos hw, if_neg hm, if_neg (fun h => hm h.2)]
        rfl
    · rw [if_neg hw, if_neg (fun h => hw h.1)]

/-- Witness of C17: a write-back shared run `0x1000-0x2000` in the window
`[0x0, 0x4000)` gives a cacheable total of `4096` and a bufferable total of `0`. -/
theorem dump_prot_accumulation_rule_witness :
    ((mt_values (arm_consts 0)).Nodup ∧
      ∀ f ∈ flag_values (arm_consts 0), f ∉ mt_values (arm_consts 0)) ∧
    (dump_prot (arm_consts 0) (arm_globals 0 0 0 0x4000)
        { marker := 0, start_address := 0x1000, level := 4, current_prot := 0x40c }
        (pte_bits (arm_consts 0)) 0x2000).1.cache_type = 4096 ∧
    (dump_prot (arm_consts 0) (arm_globals 0 0 0 0x4000)
        { marker := 0, start_address := 0x1000, level := 4, current_prot := 0x40c }
        (pte_bits (arm_consts 0)) 0x2000).1.buffer_type = 0 :=
  ⟨⟨by decide, by decide⟩,
   ((dump_prot_accumulation_rule (arm_consts 0) (arm_globals 0 0 0 0x4000)
      { marker := 0, start_address := 0x1000, level := 4, current_prot := 0x40c }
      0x2000 (by decide) (by decide)).1.trans (by rfl)),
   ((dump_prot_accumulation_rule (arm_consts 0) (arm_globals 0 0 0 0x4000)
      { marker := 0, start_address := 0x1000, level := 4, current_prot := 0x40c }
      0x2000 (by decide) (by decide)).2.1.trans (by rfl))⟩

/-! ## The report line of a write-back shared page -/

/-- C14, as stated, fails: for the leaf-level run `0x1000-0x2000` with write-back memory
type and the shared bit, the reporting-mode line carries five labels, the `clear`
labels of the user, read-only and execute-never bits included, not only `SHD` and
`MEM/CACHED/WBRA`. -/
theorem wb_shared_line_has_five_labels :
    close_line (arm_consts 0) (arm_globals 0 1 0 0)
        { marker := 0, start_address := 0x1000, level := 4, current_prot := 0x40c }
        0x2000 =
      some (arm_globals 0 1 0 0,
        [Out.range 0x1000 0x2000, Out.size 4 'K', Out.prot "   ", Out.prot "RW",
         Out.prot "x ", Out.prot "SHD", Out.prot "MEM/CACHED/WBRA", Out.newline]) ∧
    [Out.prot "   ", Out.prot "RW", Out.prot "x ", Out.prot "SHD",
      Out.prot "MEM/CACHED/WBRA"] ≠ [Out.prot "SHD", Out.prot "MEM/CACHED/WBRA"] ∧
    render_all [Out.range 0x1000 0x2000, Out.size 4 'K', Out.prot "   ", Out.prot "RW",
        Out.prot "x ", Out.prot "SHD", Out.prot "MEM/CACHED/WBRA", Out.newline] =
      "0x00001000-0x00002000           4K     RW x  SHD MEM/CACHED/WBRA\n" := by
  refine ⟨by rfl, by decide, by rfl⟩

theorem text_of_wb_shared_line :
    render_all [Out.range 0x1000 0x2000, Out.size 4 'K', Out.prot "   ", Out.prot "RW",
        Out.prot "x ", Out.prot "SHD", Out.prot "MEM/CACHED/WBRA", Out.newline] =
      "0x00001000-0x00002000           4K     RW x  SHD MEM/CACHED/WBRA\n" := by
  rfl

theorem size_of_wb_shared_run :
    unit_loop (ulong_sub 0x2000 0x1000 >>> 10) units = (4, units) := by
  rfl

/-- C14 as amended: for a leaf-level run from `0x1000` to `0x2000` whose attribute
field is exactly the write-back memory type plus the shared bit (user, read-only and
execute-never clear), with pairwise distinct memory-type values, the reporting-mode
line is the range `0x00001000-0x00002000`, the size `4K` and then five labels in table
order: the `clear` labels of the user, read-only and execute-never bits (three blanks,
`RW` and `x `), then `SHD` and `MEM/CACHED/WBRA`. -/
theorem wb_shared_line (c : Consts) (g : Globals) (marker prot : Nat) (sl : pg_level)
    (hsl : g.pg_level[4]? = some sl) (hbits : sl.bits = some (pte_bits c))
    (hflag : g.temp_flag ≠ 0) (hprot : prot ≠ 0)
    (hu : prot &&& c.L_PTE_USER ≠ c.L_PTE_USER)
    (hr : prot &&& c.L_PTE_RDONLY ≠ c.L_PTE_RDONLY)
    (hx : prot &&& c.L_PTE_XN ≠ c.L_PTE_XN)
    (hs : prot &&& c.L_PTE_SHARED = c.L_PTE_SHARED)
    (hm : prot &&& c.L_PTE_MT_MASK = c.L_PTE_MT_WRITEBACK)
    (hd : (mt_values c).Nodup) :
    (∃ g1 : Globals,
      close_line c g
          { marker := marker, start_address := 0x1000, level := 4, current_prot := prot }
          0x2000 =
        some (g1,
          [Out.range 0x1000 0x2000, Out.size 4 'K', Out.prot "   ", Out.prot "RW",
           Out.prot "x ", Out.prot "SHD", Out.prot "MEM/CACHED/WBRA", Out.newline])) ∧
    render_all [Out.range 0x1000 0x2000, Out.size 4 'K', Out.prot "   ", Out.prot "RW",
        Out.prot "x ", Out.prot "SHD", Out.prot "MEM/CACHED/WBRA", Out.newline] =
      "0x00001000-0x00002000           4K     RW x  SHD MEM/CACHED/WBRA\n" := by
  refine ⟨?_, text_of_wb_shared_line⟩
  simp only [mt_values, List.nodup_cons, List.mem_cons, List.mem_singleton,
    List.not_mem_nil, not_or, List.nodup_nil, or_false, and_true,
    not_false_eq_true] at hd
  obtain ⟨⟨_, _, u3, _, _, _, _, _, _⟩, ⟨_, b2, _, _, _, _, _, _⟩,
    ⟨t1, _, _, _, _, _, _⟩, ⟨n4, n5, n6, n7, n8, n9⟩, _⟩ := hd
  have n1 : ¬ c.L_PTE_MT_WRITEBACK = c.L_PTE_MT_UNCACHED := fun h => u3 h.symm
  have n2 : ¬ c.L_PTE_MT_WRITEBACK = c.L_PTE_MT_BUFFERABLE := fun h => b2 h.symm
  have n3 : ¬ c.L_PTE_MT_WRITEBACK = c.L_PTE_MT_WRITETHROUGH := fun h => t1 h.symm
  have hline := close_line_reporting c g
    { marker := marker, start_address := 0x1000, level := 4, current_prot := prot }
    0x2000 sl hprot hsl hflag
  have hlabels : ((sl.bits.getD []).filterMap (chosen_label prot)) =
      ["   ", "RW", "x ", "SHD", "MEM/CACHED/WBRA"] := by
    rw [hbits]
    simp [pte_bits, chosen_label, hu, hr, hx, hs, hm, n1, n2, n3, n4, n5, n6, n7, n8, n9]
  dsimp only at hline
  rw [hlabels, size_of_wb_shared_run] at hline
  exact ⟨_, hline⟩

/-- Witness of C14 as amended: the constants of `arm_consts`. -/
theorem wb_shared_line_witness :
    ((arm_globals 0 1 0 0).pg_level[4]? = some arm_pte_level ∧
      arm_pte_level.bits = some (pte_bits (arm_consts 0)) ∧
      (arm_globals 0 1 0 0).temp_flag ≠ 0 ∧ (0x40c : Nat) ≠ 0 ∧
      0x40c &&& (arm_consts 0).L_PTE_USER ≠ (arm_consts 0).L_PTE_USER ∧
      0x40c &&& (arm_consts 0).L_PTE_RDONLY ≠ (arm_consts 0).L_PTE_RDONLY ∧
      0x40c &&& (arm_consts 0).L_PTE_XN ≠ (arm_consts 0).L_PTE_XN ∧
      0x40c &&& (arm_consts 0).L_PTE_SHARED = (arm_consts 0).L_PTE_SHARED ∧
      0x40c &&& (arm_consts 0).L_PTE_MT_MASK = (arm_consts 0).L_PTE_MT_WRITEBACK ∧
      (mt_values (arm_consts 0)).Nodup) ∧
    ∃ g1 : Globals,
      close_line (arm_consts 0) (arm_globals 0 1 0 0)
          { marker := 0, start_address := 0x1000, level := 4, current_prot := 0x40c }
          0x2000 =
        some (g1,
          [Out.range 0x1000 0x2000, Out.size 4 'K', Out.prot "   ", Out.prot "RW",
           Out.prot "x ", Out.prot "SHD", Out.prot "MEM/CACHED/WBRA", Out.newline]) :=
  ⟨⟨by rfl, by rfl, by decide, by decide, by decide, by decide, by decide, by decide,
    by decide, by decide⟩,
   (wb_shared_line (arm_consts 0) (arm_globals 0 1 0 0) 0 0x40c arm_pte_level (by rfl)
      (by rfl) (by decide) (by decide) (by decide) (by decide) (by decide) (by decide)
      (by decide) (by decide)).1⟩

/-! ## The walker -/

theorem for_calls_succ (body : Nat → Option (List Call)) (i n : Nat) :
    for_calls body i (n + 1) =
      match body i with
      | none => none
      | some cs =>
        match for_calls body (i + 1) n with
        | none => none
        | some rest => some (cs ++ rest) := rfl

/-- A successful loop made the calls of its iterations, one iteration after the
other. -/
theorem for_calls_some (body : Nat → Option (List Call)) (n : Nat) :
    ∀ (i : Nat) (cs : List Call), for_calls body i n = some cs →
      ∃ css : List (List Call), css.length = n ∧
        (∀ j, j < n → body (i + j) = css[j]?) ∧ cs = css.flatten := by
  induction n with
  | zero =>
    intro i cs h
    simp only [for_calls, Option.some.injEq] at h
    exact ⟨[], rfl, fun j hj => absurd hj (Nat.not_lt_zero j), by simp [← h]⟩
  | succ n ih =>
    intro i cs h
    rw [for_calls_succ] at h
    cases hb : body i with
    | none => simp [hb] at h
    | some c0 =>
      cases hr : for_calls body (i + 1) n with
      | none => simp [hb, hr] at h
      | some rest =>
        simp only [hb, hr, Option.some.injEq] at h
        obtain ⟨css, hlen, hslots, hflat⟩ := ih (i + 1) rest hr
        refine ⟨c0 :: css, by simp [hlen], ?_, by simp [← h, hflat]⟩
        intro j hj
        cases j with
        | zero => simpa using hb
        | succ j =>
          have := hslots j (by omega)
          rw [List.getElem?_cons_succ, ← this]
          congr 1
          omega

/-- A property of the calls of every iteration holds for the calls of the loop. -/
theorem for_calls_all (P : Call → Prop) (body : Nat → Option (List Call))
    (hbody : ∀ j cs, body j = some cs → ∀ k ∈ cs, P k) (n : Nat) :
    ∀ (i : Nat) (cs : List Call), for_calls body i n = some cs → ∀ k ∈ cs, P k := by
  induction n with
  | zero =>
    intro i cs h k hk
    simp only [for_calls, Option.some.injEq] at h
    rw [← h] at hk
    simp at hk
  | succ n ih =>
    intro i cs h k hk
    rw [for_calls_succ] at h
    cases hb : body i with
    | none => simp [hb] at h
    | some c0 =>
      cases hr : for_calls body (i + 1) n with
      | none => simp [hb, hr] at h
      | some rest =>
        simp only [hb, hr, Option.some.injEq] at h
        rw [← h, List.mem_append] at hk
        rcases hk with hk | hk
        · exact hbody i c0 hb k hk
        · exact ih (i + 1) rest hr k hk

theorem walk_pte_levels (c : Consts) (pmd : pmd_t) (start : Nat) (cs : List Call)
    (h : walk_pte c pmd start = some cs) : ∀ k ∈ cs, k.level = 4 := by
  refine for_calls_all (fun k => k.level = 4) (pte_slot c pmd start) ?_ _ 0 cs h
  intro j cs0 hj k hk
  unfold pte_slot at hj
  cases hp : pmd.ptes[j]? with
  | none => simp [hp] at hj
  | some v =>
    simp only [hp, Option.some.injEq] at hj
    rw [← hj] at hk
    simp only [List.mem_singleton] at hk
    rw [hk]

theorem walk_pmd_levels (c : Consts) (pud : pud_t) (start : Nat) (cs : List Call)
    (h : walk_pmd c pud start = some cs) : ∀ k ∈ cs, k.level = 3 ∨ k.level = 4 := by
  refine for_calls_all (fun k => k.level = 3 ∨ k.level = 4) (pmd_slot c pud start) ?_ _ 0
    cs h
  intro j cs0 hj k hk
  unfold pmd_slot at hj
  cases hp : pud.pmds[j]? with
  | none => simp [hp] at hj
  | some pmd =>
    simp only [hp] at hj
    split_ifs at hj
    · simp only [Option.some.injEq] at hj
      rw [← hj] at hk
      simp only [List.mem_singleton] at hk
      left; rw [hk]
    · right; exact walk_pte_levels c pmd _ cs0 hj k hk

theorem walk_pud_levels (c : Consts) (pgd : pgd_t) (start : Nat) (cs : List Call)
    (h : walk_pud c pgd start = some cs) :
    ∀ k ∈ cs, k.level = 2 ∨ k.level = 3 ∨ k.level = 4 := by
  refine for_calls_all (fun k => k.level = 2 ∨ k.level = 3 ∨ k.level = 4)
    (pud_slot c pgd start) ?_ _ 0 cs h
  intro j cs0 hj k hk
  unfold pud_slot at hj
  cases hp : pgd.puds[j]? with
  | none => simp [hp] at hj
  | some pud =>
    simp only [hp] at hj
    split_ifs at hj
    · right; exact walk_pmd_levels c pud _ cs0 hj k hk
    · simp only [Option.some.injEq] at hj
      rw [← hj] at hk
      simp only [List.mem_singleton] at hk
      left; rw [hk]

theorem walk_pgd_loop_levels (c : Consts) (dir : List pgd_t) (cs : List Call)
    (h : walk_pgd_loop c dir = some cs) :
    ∀ k ∈ cs, k.level = 1 ∨ k.level = 2 ∨ k.level = 3 ∨ k.level = 4 := by
  refine for_calls_all (fun k => k.level = 1 ∨ k.level = 2 ∨ k.level = 3 ∨ k.level = 4)
    (pgd_slot c dir) ?_ _ _ cs h
  intro j cs0 hj k hk
  unfold pgd_slot at hj
  cases hp : dir[j - c.USER_PGTABLES_CEILING / c.PGDIR_SIZE]? with
  | none => simp [hp] at hj
  | some pgd =>
    simp only [hp] at hj
    split_ifs at hj
    · right; exact walk_pud_levels c pgd _ cs0 hj k hk
    · simp only [Option.some.injEq] at hj
      rw [← hj] at hk
      simp only [List.mem_singleton] at hk
      left; rw [hk]

/-- The calls that the loop bodies make for a slot, at each of the four table levels.
A page-table slot gives exactly one call at level 4 with the
address of the slot and its value. A middle slot that is empty, large or not present
gives exactly one call at level 3 with its address and value; otherwise it gives no
call at level 3 but the calls of `walk_pte` on its table from its address, all at
level 4. An empty upper slot gives exactly one call at level 2; otherwise the calls of
`walk_pmd` from its address, none at level 2. An empty root slot gives exactly one
call at level 1 with the address computed for the iteration; otherwise the calls of
`walk_pud` from that address, none at level 1. Every loop makes the calls of its slots
in index order. -/
theorem walker_classification (c : Consts) :
    (∀ (pmd : pmd_t) (start i v : Nat), pmd.ptes[i]? = some v →
      pte_slot c pmd start i =
        some [{ addr := ulong_add start (i * c.PAGE_SIZE), level := 4, val := v }]) ∧
    (∀ (pud : pud_t) (start i : Nat) (pmd : pmd_t), pud.pmds[i]? = some pmd →
      ((pmd.is_none = true ∨ pmd.large = true ∨ pmd.present = false) →
        pmd_slot c pud start i =
          some [{ addr := ulong_add start (i * c.PMD_SIZE), level := 3,
                  val := pmd.val }]) ∧
      (¬ (pmd.is_none = true ∨ pmd.large = true ∨ pmd.present = false) →
        pmd_slot c pud start i = walk_pte c pmd (ulong_add start (i * c.PMD_SIZE)) ∧
        ∀ cs, pmd_slot c pud start i = some cs → ∀ k ∈ cs, k.level = 4)) ∧
    (∀ (pgd : pgd_t) (start i : Nat) (pud : pud_t), pgd.puds[i]? = some pud →
      (pud.is_none = true →
        pud_slot c pgd start i =
          some [{ addr := ulong_add start (i * c.PUD_SIZE), level := 2,
                  val := pud.val }]) ∧
      (pud.is_none = false →
        pud_slot c pgd start i = walk_pmd c pud (ulong_add start (i * c.PUD_SIZE)) ∧
        ∀ cs, pud_slot c pgd start i = some cs →
          ∀ k ∈ cs, k.level = 3 ∨ k.level = 4)) ∧
    (∀ (dir : List pgd_t) (i : Nat) (pgd : pgd_t),
      dir[i - c.USER_PGTABLES_CEILING / c.PGDIR_SIZE]? = some pgd →
      (pgd.is_none = true →
        pgd_slot c dir i =
          some [{ addr := (i * c.PGDIR_SIZE) % ULONG_MOD, level := 1, val := pgd.val }]) ∧
      (pgd.is_none = false →
        pgd_slot c dir i = walk_pud c pgd ((i * c.PGDIR_SIZE) % ULONG_MOD) ∧
        ∀ cs, pgd_slot c dir i = some cs →
          ∀ k ∈ cs, k.level = 2 ∨ k.level = 3 ∨ k.level = 4)) ∧
    (∀ (pmd : pmd_t) (start : Nat) (cs : List Call), walk_pte c pmd start = some cs →
      ∃ css : List (List Call), css.length = c.PTRS_PER_PTE ∧
        (∀ j, j < c.PTRS_PER_PTE → pte_slot c pmd start (0 + j) = css[j]?) ∧
        cs = css.flatten) ∧
    (∀ (pud : pud_t) (start : Nat) (cs : List Call), walk_pmd c pud start = some cs →
      ∃ css : List (List Call), css.length = c.PTRS_PER_PMD ∧
        (∀ j, j < c.PTRS_PER_PMD → pmd_slot c pud start (0 + j) = css[j]?) ∧
        cs = css.flatten) ∧
    (∀ (pgd : pgd_t) (start : Nat) (cs : List Call), walk_pud c pgd start = some cs →
      ∃ css : List (List Call), css.length = c.PTRS_PER_PUD ∧
        (∀ j, j < c.PTRS_PER_PUD → pud_slot c pgd start (0 + j) = css[j]?) ∧
        cs = css.flatten) ∧
    (∀ (dir : List pgd_t) (cs : List Call), walk_pgd_loop c dir = some cs →
      ∃ css : List (List Call),
        css.length = c.PTRS_PER_PGD - c.USER_PGTABLES_CEILING / c.PGDIR_SIZE ∧
        (∀ j, j < c.PTRS_PER_PGD - c.USER_PGTABLES_CEILING / c.PGDIR_SIZE →
          pgd_slot c dir (c.USER_PGTABLES_CEILING / c.PGDIR_SIZE + j) = css[j]?) ∧
        cs = css.flatten) := by
  refine ⟨?_, ?_, ?_, ?_, ?_, ?_, ?_, ?_⟩
  · intro pmd start i v hv
    simp only [pte_slot, hv]
  · intro pud start i pmd hp
    constructor
    · intro hcond
      have : (pmd.is_none || pmd.large || !pmd.present) = true := by
        rcases hcond with h | h | h <;> simp [h]
      simp only [pmd_slot, hp, this, if_true]
    · intro hcond
      have hne : ¬ (pmd.is_none || pmd.large || !pmd.present) = true := by
        intro h
        apply hcond
        simp only [Bool.or_eq_true, Bool.not_eq_true'] at h
        rcases h with (h | h) | h
        · exact Or.inl h
        · exact Or.inr (Or.inl h)
        · exact Or.inr (Or.inr h)
      have hslot : pmd_slot c pud start i =
          walk_pte c pmd (ulong_add start (i * c.PMD_SIZE)) := by
        simp only [pmd_slot, hp]
        rw [if_neg hne]
      refine ⟨hslot, ?_⟩
      intro cs hcs
      rw [hslot] at hcs
      exact walk_pte_levels c pmd _ cs hcs
  · intro pgd start i pud hp
    constructor
    · intro hnone
      simp [pud_slot, hp, hnone]
    · intro hnone
      have hslot : pud_slot c pgd start i =
          walk_pmd c pud (ulong_add start (i * c.PUD_SIZE)) := by
        simp [pud_slot, hp, hnone]
      refine ⟨hslot, ?_⟩
      intro cs hcs
      rw [hslot] at hcs
      exact walk_pmd_levels c pud _ cs hcs
  · intro dir i pgd hp
    constructor
    · intro hnone
      simp [pgd_slot, hp, hnone]
    · intro hnone
      have hslot : pgd_slot c dir i = walk_pud c pgd ((i * c.PGDIR_SIZE) % ULONG_MOD) := by
        simp [pgd_slot, hp, hnone]
      refine ⟨hslot, ?_⟩
      intro cs hcs
      rw [hslot] at hcs
      exact walk_pud_levels c pgd _ cs hcs
  · intro pmd start cs h
    exact for_calls_some _ _ 0 cs h
  · intro pud start cs h
    exact for_calls_some _ _ 0 cs h
  · intro pgd start cs h
    exact for_calls_some _ _ 0 cs h
  · intro dir cs h
    exact for_calls_some _ _ _ cs h

/-! ## Order of the addresses of a walk -/

theorem calls_within_nil (lo hi : Nat) : calls_within lo hi [] :=
  ⟨List.Pairwise.nil, fun k hk => absurd hk (List.not_mem_nil k)⟩

theorem calls_within_single (lo hi : Nat) (k : Call) (h1 : lo ≤ k.addr) (h2 : k.addr < hi) :
    calls_within lo hi [k] := by
  refine ⟨List.pairwise_singleton _ _, ?_⟩
  intro x hx
  rw [List.mem_singleton] at hx
  rw [hx]
  exact ⟨h1, h2⟩

theorem calls_within_mono (lo hi lo2 hi2 : Nat) (cs : List Call)
    (h : calls_within lo hi cs) (h1 : lo2 ≤ lo) (h2 : hi ≤ hi2) :
    calls_within lo2 hi2 cs := by
  refine ⟨h.1, ?_⟩
  intro k hk
  have := h.2 k hk
  omega

theorem calls_within_append (a b b2 d : Nat) (xs ys : List Call)
    (hx : calls_within a b xs) (hy : calls_within b2 d ys)
    (h1 : a ≤ b) (h2 : b ≤ b2) (h3 : b2 ≤ d) :
    calls_within a d (xs ++ ys) := by
  refine ⟨?_, ?_⟩
  · rw [List.pairwise_append]
    refine ⟨hx.1, hy.1, ?_⟩
    intro x hxm y hym
    have := hx.2 x hxm
    have := hy.2 y hym
    omega
  · intro k hk
    rw [List.mem_append] at hk
    rcases hk with hk | hk
    · have := hx.2 k hk
      omega
    · have := hy.2 k hk
      omega

/-- A loop whose iteration `j` makes increasing calls within the span
`[start + j * size, start + (j + 1) * size)` makes increasing calls. -/
theorem for_calls_within (body : Nat → Option (List Call)) (start size n : Nat) :
    ∀ (i : Nat) (cs : List Call),
      (∀ j, i ≤ j → j < i + n → ∀ cs0, body j = some cs0 →
        calls_within (start + j * size) (start + (j + 1) * size) cs0) →
      for_calls body i n = some cs →
      calls_within (start + i * size) (start + (i + n) * size) cs := by
  induction n with
  | zero =>
    intro i cs _ h
    simp only [for_calls, Option.some.injEq] at h
    rw [← h]
    exact calls_within_nil _ _
  | succ n ih =>
    intro i cs hbody h
    rw [for_calls_succ] at h
    cases hb : body i with
    | none => simp [hb] at h
    | some c0 =>
      cases hr : for_calls body (i + 1) n with
      | none => simp [hb, hr] at h
      | some rest =>
        simp only [hb, hr, Option.some.injEq] at h
        have h0 := hbody i (le_refl i) (by omega) c0 hb
        have hrest := ih (i + 1) rest
          (fun j hj1 hj2 cs0 hcs0 => hbody j (by omega) (by omega) cs0 hcs0) hr
        have e : i + 1 + n = i + (n + 1) := by omega
        rw [e] at hrest
        rw [← h]
        have m1 : i * size ≤ (i + 1) * size := Nat.mul_le_mul_right size (by omega)
        have m2 : (i + 1) * size ≤ (i + (n + 1)) * size :=
          Nat.mul_le_mul_right size (by omega)
        exact calls_within_append _ _ _ _ c0 rest h0 hrest (by omega) (le_refl _) (by omega)

theorem ulong_add_of_lt (a b : Nat) (h : a + b < ULONG_MOD) : ulong_add a b = a + b := by
  unfold ulong_add
  exact Nat.mod_eq_of_lt h

theorem walk_pte_within (c : Consts) (pmd : pmd_t) (start : Nat) (cs : List Call)
    (hpage : 0 < c.PAGE_SIZE) (hfit : start + c.PTRS_PER_PTE * c.PAGE_SIZE ≤ ULONG_MOD)
    (h : walk_pte c pmd start = some cs) :
    calls_within start (start + c.PTRS_PER_PTE * c.PAGE_SIZE) cs := by
  have := for_calls_within (pte_slot c pmd start) start c.PAGE_SIZE c.PTRS_PER_PTE 0 cs
    ?_ h
  · simpa using this
  · intro j _ hj cs0 hcs0
    unfold pte_slot at hcs0
    cases hp : pmd.ptes[j]? with
    | none => simp [hp] at hcs0
    | some v =>
      simp only [hp, Option.some.injEq] at hcs0
      rw [← hcs0]
      have m1 : (j + 1) * c.PAGE_SIZE ≤ c.PTRS_PER_PTE * c.PAGE_SIZE :=
        Nat.mul_le_mul_right _ (by omega)
      have m2 : (j + 1) * c.PAGE_SIZE = j * c.PAGE_SIZE + c.PAGE_SIZE := Nat.succ_mul _ _
      have hadd : ulong_add start (j * c.PAGE_SIZE) = start + j * c.PAGE_SIZE :=
        ulong_add_of_lt _ _ (by omega)
      apply calls_within_single
      · show start + j * c.PAGE_SIZE ≤ ulong_add start (j * c.PAGE_SIZE)
        omega
      · show ulong_add start (j * c.PAGE_SIZE) < start + (j + 1) * c.PAGE_SIZE
        omega

theorem walk_pmd_within (c : Consts) (pud : pud_t) (start : Nat) (cs : List Call)
    (hpage : 0 < c.PAGE_SIZE) (hpmd : 0 < c.PMD_SIZE)
    (g1 : c.PTRS_PER_PTE * c.PAGE_SIZE ≤ c.PMD_SIZE)
    (hfit : start + c.PTRS_PER_PMD * c.PMD_SIZE ≤ ULONG_MOD)
    (h : walk_pmd c pud start = some cs) :
    calls_within start (start + c.PTRS_PER_PMD * c.PMD_SIZE) cs := by
  have := for_calls_within (pmd_slot c pud start) start c.PMD_SIZE c.PTRS_PER_PMD 0 cs
    ?_ h
  · simpa using this
  · intro j _ hj cs0 hcs0
    unfold pmd_slot at hcs0
    cases hp : pud.pmds[j]? with
    | none => simp [hp] at hcs0
    | some pmd =>
      simp only [hp] at hcs0
      have m1 : (j + 1) * c.PMD_SIZE ≤ c.PTRS_PER_PMD * c.PMD_SIZE :=
        Nat.mul_le_mul_right _ (by omega)
      have m2 : (j + 1) * c.PMD_SIZE = j * c.PMD_SIZE + c.PMD_SIZE := Nat.succ_mul _ _
      have hadd : ulong_add start (j * c.PMD_SIZE) = start + j * c.PMD_SIZE :=
        ulong_add_of_lt _ _ (by omega)
      rw [hadd] at hcs0
      split_ifs at hcs0
      · simp only [Option.some.injEq] at hcs0
        rw [← hcs0]
        apply calls_within_single
        · show start + j * c.PMD_SIZE ≤ start + j * c.PMD_SIZE
          omega
        · show start + j * c.PMD_SIZE < start + (j + 1) * c.PMD_SIZE
          omega
      · have hw := walk_pte_within c pmd (start + j * c.PMD_SIZE) cs0 hpage (by omega) hcs0
        exact calls_within_mono _ _ _ _ cs0 hw (le_refl _) (by omega)

theorem walk_pud_within (c : Consts) (pgd : pgd_t) (start : Nat) (cs : List Call)
    (hpage : 0 < c.PAGE_SIZE) (hpmd : 0 < c.PMD_SIZE) (hpud : 0 < c.PUD_SIZE)
    (g1 : c.PTRS_PER_PTE * c.PAGE_SIZE ≤ c.PMD_SIZE)
    (g2 : c.PTRS_PER_PMD * c.PMD_SIZE ≤ c.PUD_SIZE)
    (hfit : start + c.PTRS_PER_PUD * c.PUD_SIZE ≤ ULONG_MOD)
    (h : walk_pud c pgd start = some cs) :
    calls_within start (start + c.PTRS_PER_PUD * c.PUD_SIZE) cs := by
  have := for_calls_within (pud_slot c pgd start) start c.PUD_SIZE c.PTRS_PER_PUD 0 cs
    ?_ h
  · simpa using this
  · intro j _ hj cs0 hcs0
    unfold pud_slot at hcs0
    cases hp : pgd.puds[j]? with
    | none => simp [hp] at hcs0
    | some pud =>
      simp only [hp] at hcs0
      have m1 : (j + 1) * c.PUD_SIZE ≤ c.PTRS_PER_PUD * c.PUD_SIZE :=
        Nat.mul_le_mul_right _ (by omega)
      have m2 : (j + 1) * c.PUD_SIZE = j * c.PUD_SIZE + c.PUD_SIZE := Nat.succ_mul _ _
      have hadd : ulong_add start (j * c.PUD_SIZE) = start + j * c.PUD_SIZE :=
        ulong_add_of_lt _ _ (by omega)
      rw [hadd] at hcs0
      split_ifs at hcs0
      · have hw := walk_pmd_within c pud (start + j * c.PUD_SIZE) cs0 hpage hpmd g1
          (by omega) hcs0
        exact calls_within_mono _ _ _ _ cs0 hw (le_refl _) (by omega)
      · simp only [Option.some.injEq] at hcs0
        rw [← hcs0]
        apply calls_within_single
        · show start + j * c.PUD_SIZE ≤ start + j * c.PUD_SIZE
          omega
        · show start + j * c.PUD_SIZE < start + (j + 1) * c.PUD_SIZE
          omega

theorem walk_pgd_loop_within (c : Consts) (dir : List pgd_t) (cs : List Call)
    (hpage : 0 < c.PAGE_SIZE) (hpmd : 0 < c.PMD_SIZE) (hpud : 0 < c.PUD_SIZE)
    (hpgd : 0 < c.PGDIR_SIZE)
    (g1 : c.PTRS_PER_PTE * c.PAGE_SIZE ≤ c.PMD_SIZE)
    (g2 : c.PTRS_PER_PMD * c.PMD_SIZE ≤ c.PUD_SIZE)
    (g3 : c.PTRS_PER_PUD * c.PUD_SIZE ≤ c.PGDIR_SIZE)
    (hfit : c.PTRS_PER_PGD * c.PGDIR_SIZE ≤ ULONG_MOD)
    (h : walk_pgd_loop c dir = some cs) :
    calls_within (0 + c.USER_PGTABLES_CEILING / c.PGDIR_SIZE * c.PGDIR_SIZE)
      (0 + (c.USER_PGTABLES_CEILING / c.PGDIR_SIZE +
        (c.PTRS_PER_PGD - c.USER_PGTABLES_CEILING / c.PGDIR_SIZE)) * c.PGDIR_SIZE) cs := by
  refine for_calls_within (pgd_slot c dir) 0 c.PGDIR_SIZE _ _ cs ?_ h
  intro j hj1 hj2 cs0 hcs0
  unfold pgd_slot at hcs0
  cases hp : dir[j - c.USER_PGTABLES_CEILING / c.PGDIR_SIZE]? with
  | none => simp [hp] at hcs0
  | some pgd =>
    simp only [hp] at hcs0
    have hj : j < c.PTRS_PER_PGD := by omega
    have m1 : (j + 1) * c.PGDIR_SIZE ≤ c.PTRS_PER_PGD * c.PGDIR_SIZE :=
      Nat.mul_le_mul_right _ (by omega)
    have m2 : (j + 1) * c.PGDIR_SIZE = j * c.PGDIR_SIZE + c.PGDIR_SIZE := Nat.succ_mul _ _
    have hmod : (j * c.PGDIR_SIZE) % ULONG_MOD = j * c.PGDIR_SIZE :=
      Nat.mod_eq_of_lt (by omega)
    rw [hmod] at hcs0
    split_ifs at hcs0
    · have hw := walk_pud_within c pgd (j * c.PGDIR_SIZE) cs0 hpage hpmd hpud g1 g2
        (by omega) hcs0
      exact calls_within_mono _ _ _ _ cs0 hw (by omega) (by omega)
    · simp only [Option.some.injEq] at hcs0
      rw [← hcs0]
      apply calls_within_single
      · show 0 + j * c.PGDIR_SIZE ≤ j * c.PGDIR_SIZE
        omega
      · show j * c.PGDIR_SIZE < 0 + (j + 1) * c.PGDIR_SIZE
        omega

/-- C16 (ascending order of reports): for every page-table tree and a geometry with
positive spans in which the entries of a table fit into the span of the entry that
refers to it (`PTRS_PER_PTE * PAGE_SIZE <= PMD_SIZE`, `PTRS_PER_PMD * PMD_SIZE <=
PUD_SIZE`, `PTRS_PER_PUD * PUD_SIZE <= PGDIR_SIZE`) and the root table covers no more
than the address space, the addresses that the loop of `walk_pgd` passes to `note_page`
before the final call are strictly increasing. -/
theorem walk_addresses_increasing (c : Consts) (dir : List pgd_t) (calls : List Call)
    (hpage : 0 < c.PAGE_SIZE) (hpmd : 0 < c.PMD_SIZE) (hpud : 0 < c.PUD_SIZE)
    (hpgd : 0 < c.PGDIR_SIZE)
    (g1 : c.PTRS_PER_PTE * c.PAGE_SIZE ≤ c.PMD_SIZE)
    (g2 : c.PTRS_PER_PMD * c.PMD_SIZE ≤ c.PUD_SIZE)
    (g3 : c.PTRS_PER_PUD * c.PUD_SIZE ≤ c.PGDIR_SIZE)
    (hfit : c.PTRS_PER_PGD * c.PGDIR_SIZE ≤ ULONG_MOD)
    (hwalk : walk_pgd_loop c dir = some calls) :
    calls.Pairwise (fun a b => a.addr < b.addr) ∧
    (calls.map Call.addr).Pairwise (fun a b => a < b) := by
  have h := (walk_pgd_loop_within c dir calls hpage hpmd hpud hpgd g1 g2 g3 hfit hwalk).1
  exact ⟨h, List.pairwise_map.mpr h⟩

/-- Witness of C16: the walk over `small_dir`. -/
theorem walk_addresses_increasing_witness :
    (0 < small_consts.PAGE_SIZE ∧ 0 < small_consts.PMD_SIZE ∧ 0 < small_consts.PUD_SIZE ∧
      0 < small_consts.PGDIR_SIZE ∧
      small_consts.PTRS_PER_PTE * small_consts.PAGE_SIZE ≤ small_consts.PMD_SIZE ∧
      small_consts.PTRS_PER_PMD * small_consts.PMD_SIZE ≤ small_consts.PUD_SIZE ∧
      small_consts.PTRS_PER_PUD * small_consts.PUD_SIZE ≤ small_consts.PGDIR_SIZE ∧
      small_consts.PTRS_PER_PGD * small_consts.PGDIR_SIZE ≤ ULONG_MOD ∧
      walk_pgd_loop small_consts small_dir =
        some [{ addr := 0, level := 4, val := 0x140f },
              { addr := 0x1000, level := 4, val := 0x240f },
              { addr := 0x2000, level := 3, val := 0 },
              { addr := 0x4000, level := 1, val := 0 }]) ∧
    ([0, 0x1000, 0x2000, 0x4000] : List Nat).Pairwise (fun a b => a < b) :=
  ⟨⟨by decide, by decide, by decide, by decide, by decide, by decide, by decide,
    by decide, by rfl⟩,
   (walk_addresses_increasing small_consts small_dir
      [{ addr := 0, level := 4, val := 0x140f },
       { addr := 0x1000, level := 4, val := 0x240f },
       { addr := 0x2000, level := 3, val := 0 },
       { addr := 0x4000, level := 1, val := 0 }]
      (by decide) (by decide) (by decide) (by decide) (by decide) (by decide)
      (by decide) (by decide) (by rfl)).2⟩

/-- C18 (root slot and address pairing), evaluated on the code: with the three-level
geometry and the ceiling `0xbf000000` the loop counter starts at `2` while `pgd`
starts at root slot `0`. The empty root slots `0` and `1` are read and reported for the
addresses `0x80000000` and `0xc0000000`, and root slots `2` and `3`, whatever they
hold, are never read. -/
theorem walk_pgd_reads_slots_from_zero (e2 e3 : pgd_t) :
    lpae_consts.USER_PGTABLES_CEILING / lpae_consts.PGDIR_SIZE = 2 ∧
    walk_pgd_loop lpae_consts
        [{ val := 0, is_none := true, puds := [] },
         { val := 0, is_none := true, puds := [] }, e2, e3] =
      some [{ addr := 0x80000000, level := 1, val := 0 },
            { addr := 0xc0000000, level := 1, val := 0 }] := by
  refine ⟨by decide, by rfl⟩

/-! ## Every successful call of the recorder -/

/-- The three ways in which a call of `note_page` returns: without any effect (below
the ceiling, or on an open run whose close condition fails), by opening the first
run, or by closing the open run. -/
theorem note_page_cases (c : Consts) (g g1 : Globals) (st st1 : pg_state)
    (addr level val : Nat) (out : List Out)
    (h : note_page c g st addr level val = some (g1, st1, out)) :
    ∃ pl, g.pg_level[level]? = some pl ∧
      ((g1 = g ∧ st1 = st ∧ out = [] ∧
          (addr < c.USER_PGTABLES_CEILING ∨
            (st.level ≠ 0 ∧ ∃ m1, g.address_markers[st.marker + 1]? = some m1 ∧
              ¬ (val &&& pl.mask ≠ st.current_prot ∨ level ≠ st.level ∨
                addr ≥ m1.start_address)))) ∨
       (c.USER_PGTABLES_CEILING ≤ addr ∧ st.level = 0 ∧ g1 = g ∧
          st1 = { st with level := level, current_prot := val &&& pl.mask } ∧
          ((g.temp_flag = 0 ∧ out = []) ∨
            (g.temp_flag ≠ 0 ∧ ∃ m, g.address_markers[st.marker]? = some m ∧
              out = [Out.header m.name]))) ∨
       (c.USER_PGTABLES_CEILING ≤ addr ∧ st.level ≠ 0 ∧
          ∃ m1 line, g.address_markers[st.marker + 1]? = some m1 ∧
            (val &&& pl.mask ≠ st.current_prot ∨ level ≠ st.level ∨
              addr ≥ m1.start_address) ∧
            close_line c g st addr = some (g1, line) ∧
            st1 = { marker := if addr ≥ m1.start_address then st.marker + 1 else st.marker,
                    start_address := addr, level := level,
                    current_prot := val &&& pl.mask } ∧
            out = line ++
              if addr ≥ m1.start_address then print_if g1 (Out.header m1.name) else [])) := by
  cases hpl : g.pg_level[level]? with
  | none => simp [note_page, hpl] at h
  | some pl =>
    refine ⟨pl, rfl, ?_⟩
    by_cases hlow : addr < c.USER_PGTABLES_CEILING
    · rw [note_page_below_ceiling c g st addr level val pl hpl hlow] at h
      simp only [Option.some.injEq, Prod.mk.injEq] at h
      exact Or.inl ⟨h.1.symm, h.2.1.symm, h.2.2.symm, Or.inl hlow⟩
    · have hceil : c.USER_PGTABLES_CEILING ≤ addr := by omega
      by_cases hlev : st.level = 0
      · right; left
        simp only [note_page, hpl, if_neg hlow, if_pos hlev] at h
        by_cases hf : g.temp_flag = 0
        · simp only [ne_eq, hf, not_true_eq_false, if_false, Option.some.injEq,
            Prod.mk.injEq] at h
          exact ⟨hceil, hlev, h.1.symm, h.2.1.symm, Or.inl ⟨hf, h.2.2.symm⟩⟩
        · simp only [ne_eq, hf, not_false_eq_true, if_true] at h
          cases hm : g.address_markers[st.marker]? with
          | none => simp [hm] at h
          | some m =>
            simp only [hm, Option.some.injEq, Prod.mk.injEq] at h
            exact ⟨hceil, hlev, h.1.symm, h.2.1.symm, Or.inr ⟨hf, m, rfl, h.2.2.symm⟩⟩
      · cases hm1 : g.address_markers[st.marker + 1]? with
        | none => simp [note_page, hpl, hlow, hlev, hm1] at h
        | some m1 =>
          by_cases hcond : val &&& pl.mask ≠ st.current_prot ∨ level ≠ st.level ∨
              addr ≥ m1.start_address
          · right; right
            cases hline : close_line c g st addr with
            | none =>
              simp only [note_page, hpl, if_neg hlow, if_neg hlev, hm1, if_pos hcond,
                hline] at h
              exact absurd h (by simp)
            | some r =>
              obtain ⟨g2, line⟩ := r
              rw [note_page_close c g st addr level val pl m1 g2 line hlev hceil hpl hm1
                hcond hline] at h
              simp only [Option.some.injEq, Prod.mk.injEq] at h
              obtain ⟨hg, hst, hout⟩ := h
              subst hg
              exact ⟨hceil, hlev, m1, line, rfl, hcond, rfl, hst.symm, hout.symm⟩
          · rw [note_page_continue c g st addr level val pl m1 hlev hceil hpl hm1
              hcond] at h
            simp only [Option.some.injEq, Prod.mk.injEq] at h
            exact Or.inl ⟨h.1.symm, h.2.1.symm, h.2.2.symm,
              Or.inr ⟨hlev, m1, rfl, hcond⟩⟩

/-- The globals after `close_line` keep everything but the counters; in silent mode
no token is printed. -/
theorem close_line_frame (c : Consts) (g g1 : Globals) (st : pg_state) (addr : Nat)
    (line : List Out) (h : close_line c g st addr = some (g1, line)) :
    (g1.temp_flag = g.temp_flag ∧ g1.address_markers = g.address_markers ∧
      g1.pg_level = g.pg_level ∧ g1.cma_virt_start = g.cma_virt_start ∧
      g1.cma_virt_end = g.cma_virt_end) ∧
    (g.temp_flag = 0 → line = []) := by
  by_cases hp : st.current_prot = 0
  · rw [close_line_zero c g st addr hp] at h
    simp only [Option.some.injEq, Prod.mk.injEq] at h
    obtain ⟨hg, hl⟩ := h
    subst hg
    exact ⟨⟨rfl, rfl, rfl, rfl, rfl⟩, fun _ => hl.symm⟩
  · obtain ⟨sl, hsl, hg⟩ := close_line_globals c g g1 st addr line hp h
    refine ⟨by rw [hg]; exact call_dump_prot_frame c g st sl addr, ?_⟩
    intro hf
    rw [close_line_silent c g st addr sl hp hsl hf] at h
    simp only [Option.some.injEq, Prod.mk.injEq] at h
    exact h.2.symm

/-- In silent mode a call of `note_page` prints nothing. -/
theorem note_page_silent (c : Consts) (g g1 : Globals) (st st1 : pg_state)
    (addr level val : Nat) (out : List Out) (hf : g.temp_flag = 0)
    (h : note_page c g st addr level val = some (g1, st1, out)) : out = [] := by
  obtain ⟨pl, _, hcase⟩ := note_page_cases c g g1 st st1 addr level val out h
  rcases hcase with ⟨_, _, hout, _⟩ | ⟨_, _, _, _, hout⟩ | ⟨_, _, m1, line, _, _, hline, _, hout⟩
  · exact hout
  · rcases hout with ⟨_, hout⟩ | ⟨hne, _⟩
    · exact hout
    · exact absurd hf hne
  · obtain ⟨⟨hflag, _⟩, hl⟩ := close_line_frame c g g1 st addr line hline
    rw [hout, hl hf]
    have : g1.temp_flag = 0 := hflag.trans hf
    unfold print_if
    simp [this]

/-- In silent mode a sequence of calls of `note_page` prints nothing. -/
theorem note_pages_silent (c : Consts) (calls : List Call) :
    ∀ (g g2 : Globals) (st st2 : pg_state) (out : List Out), g.temp_flag = 0 →
      note_pages c g st calls = some (g2, st2, out) → out = [] := by
  induction calls with
  | nil =>
    intro g g2 st st2 out _ h
    simp only [note_pages, Option.some.injEq, Prod.mk.injEq] at h
    exact h.2.2.symm
  | cons k ks ih =>
    intro g g2 st st2 out hf h
    cases h1 : note_page c g st k.addr k.level k.val with
    | none => simp [note_pages, h1] at h
    | some r1 =>
      obtain ⟨g1, st1, out1⟩ := r1
      cases h2 : note_pages c g1 st1 ks with
      | none => simp [note_pages, h1, h2] at h
      | some r2 =>
        obtain ⟨g3, st3, out3⟩ := r2
        simp only [note_pages, h1, h2, Option.some.injEq, Prod.mk.injEq] at h
        have e1 := note_page_silent c g g1 st st1 k.addr k.level k.val out1 hf h1
        have hf1 : g1.temp_flag = 0 :=
          (note_page_counters c g g1 st st1 k.addr k.level k.val out1 h1).1.1.trans hf
        have e2 := ih g1 g3 st1 st3 out3 hf1 h2
        rw [← h.2.2, e1, e2]
        rfl

/-! ## The marker index stays in bounds -/

/-- One successful call moves the marker index by at most one and keeps it in front of
the last entry, when the address of the call is below the start address of the last
entry. -/
theorem note_page_marker_step (c : Consts) (g g1 : Globals) (st st1 : pg_state)
    (addr level val : Nat) (out : List Out)
    (hlast : ∀ m, g.address_markers[g.address_markers.length - 1]? = some m →
      addr < m.start_address)
    (hmk : st.marker + 1 < g.address_markers.length)
    (h : note_page c g st addr level val = some (g1, st1, out)) :
    g1.address_markers = g.address_markers ∧ g1.pg_level = g.pg_level ∧
    st.marker ≤ st1.marker ∧ st1.marker ≤ st.marker + 1 ∧
    st1.marker + 1 < g.address_markers.length ∧
    (st1.level = st.level ∨ st1.level = level) := by
  obtain ⟨hframe, _, _⟩ := note_page_counters c g g1 st st1 addr level val out h
  obtain ⟨pl, _, hcase⟩ := note_page_cases c g g1 st st1 addr level val out h
  refine ⟨hframe.2.1, hframe.2.2.1, ?_⟩
  rcases hcase with ⟨_, hst, _, _⟩ | ⟨_, _, _, hst, _⟩ | ⟨_, _, m1, line, hm1, _, _, hst, _⟩
  · rw [hst]
    exact ⟨le_refl _, by omega, hmk, Or.inl rfl⟩
  · have e1 : st1.marker = st.marker := by rw [hst]
    have e2 : st1.level = level := by rw [hst]
    rw [e1]
    exact ⟨le_refl _, by omega, hmk, Or.inr e2⟩
  · have e2 : st1.level = level := by rw [hst]
    by_cases hx : addr ≥ m1.start_address
    · have e1 : st1.marker = st.marker + 1 := by rw [hst]; exact if_pos hx
      rw [e1]
      refine ⟨by omega, le_refl _, ?_, Or.inr e2⟩
      by_contra hcon
      have he : st.marker + 1 = g.address_markers.length - 1 := by omega
      have := hlast m1 (by rw [← he]; exact hm1)
      omega
    · have e1 : st1.marker = st.marker := by rw [hst]; exact if_neg hx
      rw [e1]
      exact ⟨le_refl _, by omega, hmk, Or.inr e2⟩

/-- A sequence of successful calls moves the marker index by at most one per call and
keeps it in front of the last entry. -/
theorem note_pages_marker (c : Consts) (calls : List Call) :
    ∀ (g g2 : Globals) (st st2 : pg_state) (out : List Out),
      (∀ k ∈ calls, ∀ m, g.address_markers[g.address_markers.length - 1]? = some m →
        k.addr < m.start_address) →
      st.marker + 1 < g.address_markers.length →
      note_pages c g st calls = some (g2, st2, out) →
      g2.address_markers = g.address_markers ∧ g2.pg_level = g.pg_level ∧
      st.marker ≤ st2.marker ∧ st2.marker ≤ st.marker + calls.length ∧
      st2.marker + 1 < g.address_markers.length := by
  induction calls with
  | nil =>
    intro g g2 st st2 out _ hmk h
    simp only [note_pages, Option.some.injEq, Prod.mk.injEq] at h
    obtain ⟨hg, hst, _⟩ := h
    subst hg hst
    exact ⟨rfl, rfl, le_refl _, by simp, hmk⟩
  | cons k ks ih =>
    intro g g2 st st2 out hlast hmk h
    cases h1 : note_page c g st k.addr k.level k.val with
    | none => simp [note_pages, h1] at h
    | some r1 =>
      obtain ⟨g1, st1, out1⟩ := r1
      cases h2 : note_pages c g1 st1 ks with
      | none => simp [note_pages, h1, h2] at h
      | some r2 =>
        obtain ⟨g3, st3, out3⟩ := r2
        simp only [note_pages, h1, h2, Option.some.injEq, Prod.mk.injEq] at h
        obtain ⟨hg, hst, _⟩ := h
        subst hg hst
        obtain ⟨f1, f2, a1, a2, a3, _⟩ := note_page_marker_step c g g1 st st1 k.addr k.level
          k.val out1 (hlast k (List.mem_cons_self k ks)) hmk h1
        have hlast1 : ∀ x ∈ ks, ∀ m,
            g1.address_markers[g1.address_markers.length - 1]? = some m →
            x.addr < m.start_address := by
          intro x hx m hm
          rw [f1] at hm
          exact hlast x (List.mem_cons_of_mem k hx) m hm
        obtain ⟨e1, e2, b1, b2, b3⟩ := ih g1 g3 st1 st3 out3 hlast1 (by rw [f1]; exact a3) h2
        rw [f1] at b3
        refine ⟨e1.trans f1, e2.trans f2, by omega, ?_, b3⟩
        rw [List.length_cons]
        omega

/-- A call of `note_page` returns when its level is an index of `pg_level`, the level
of the open run is one, the marker index is in front of the last entry and the address
is below the start address of the last entry. -/
theorem note_page_some (c : Consts) (g : Globals) (st : pg_state) (addr level val : Nat)
    (hlevel : level < g.pg_level.length)
    (hstlev : st.level = 0 ∨ st.level < g.pg_level.length)
    (hmk : st.marker + 1 < g.address_markers.length) :
    ∃ g1 st1 out, note_page c g st addr level val = some (g1, st1, out) := by
  have hpl : g.pg_level[level]? = some (g.pg_level[level]) :=
    List.getElem?_eq_getElem hlevel
  have hm1 : g.address_markers[st.marker + 1]? = some (g.address_markers[st.marker + 1]) :=
    List.getElem?_eq_getElem hmk
  have hm0 : g.address_markers[st.marker]? =
      some (g.address_markers.get ⟨st.marker, by omega⟩) :=
    List.getElem?_eq_getElem (by omega)
  by_cases hlow : addr < c.USER_PGTABLES_CEILING
  · exact ⟨_, _, _, note_page_below_ceiling c g st addr level val _ hpl hlow⟩
  · have hceil : c.USER_PGTABLES_CEILING ≤ addr := by omega
    by_cases hlev : st.level = 0
    · exact ⟨_, _, _, note_page_first c g st addr level val _ _ hlev hceil hpl hm0⟩
    · by_cases hcond : val &&& (g.pg_level[level]).mask ≠ st.current_prot ∨
          level ≠ st.level ∨ addr ≥ (g.address_markers[st.marker + 1]).start_address
      · have hsl : g.pg_level[st.level]? = some (g.pg_level.get ⟨st.level, by omega⟩) :=
          List.getElem?_eq_getElem (by omega)
        obtain ⟨g1, line, hline, _, _⟩ := close_line_range_tokens c g st addr _ hsl
        exact ⟨_, _, _, note_page_close c g st addr level val _ _ g1 line hlev hceil hpl
          hm1 hcond hline⟩
      · exact ⟨_, _, _, note_page_continue c g st addr level val _ _ hlev hceil hpl hm1
          hcond⟩

/-- A sequence of calls of `note_page` returns when every level is an index of
`pg_level`, every address is below the start address of the last marker, and the walk
state is one that such calls reach. -/
theorem note_pages_some (c : Consts) (calls : List Call) :
    ∀ (g : Globals) (st : pg_state),
      (∀ k ∈ calls, k.level < g.pg_level.length) →
      (∀ k ∈ calls, ∀ m, g.address_markers[g.address_markers.length - 1]? = some m →
        k.addr < m.start_address) →
      (st.level = 0 ∨ st.level < g.pg_level.length) →
      st.marker + 1 < g.address_markers.length →
      ∃ g2 st2 out, note_pages c g st calls = some (g2, st2, out) := by
  induction calls with
  | nil =>
    intro g st _ _ _ _
    exact ⟨g, st, [], rfl⟩
  | cons k ks ih =>
    intro g st hlevels hlast hstlev hmk
    obtain ⟨g1, st1, out1, h1⟩ := note_page_some c g st k.addr k.level k.val
      (hlevels k (List.mem_cons_self k ks)) hstlev hmk
    obtain ⟨f1, f2, _, _, a3, a4⟩ := note_page_marker_step c g g1 st st1 k.addr k.level
      k.val out1 (hlast k (List.mem_cons_self k ks)) hmk h1
    have hlevels1 : ∀ x ∈ ks, x.level < g1.pg_level.length := by
      intro x hx
      rw [f2]
      exact hlevels x (List.mem_cons_of_mem k hx)
    have hlast1 : ∀ x ∈ ks, ∀ m,
        g1.address_markers[g1.address_markers.length - 1]? = some m →
        x.addr < m.start_address := by
      intro x hx m hm
      rw [f1] at hm
      exact hlast x (List.mem_cons_of_mem k hx) m hm
    have hstlev1 : st1.level = 0 ∨ st1.level < g1.pg_level.length := by
      rw [f2]
      rcases a4 with a4 | a4
      · rw [a4]; exact hstlev
      · rw [a4]; exact Or.inr (hlevels k (List.mem_cons_self k ks))
    obtain ⟨g2, st2, out2, h2⟩ := ih g1 st1 hlevels1 hlast1 hstlev1 (by rw [f1]; exact a3)
    exact ⟨g2, st2, out1 ++ out2, by simp only [note_pages, h1, h2]⟩

/-- C20 (marker lookup stays in bounds): for a marker list with an entry in front of
its last entry, the sentinel whose start address is the largest `unsigned long`, and
calls whose addresses are all below that value, the marker index starts at the first
entry and, after any such sequence of calls from the fresh walk state, has advanced by
at most one per call and is still in front of the sentinel, so the successor entry
`marker[1]` exists; a further call moves it by at most one. With levels that are
indices of `pg_level` every call of the sequence returns. -/
theorem marker_lookup_in_bounds (c : Consts) (g : Globals) (calls : List Call)
    (sentinel : addr_marker)
    (hlen : 1 < g.address_markers.length)
    (hsent : g.address_markers.getLast? = some sentinel)
    (hmax : sentinel.start_address = ULONG_MOD - 1)
    (haddr : ∀ k ∈ calls, k.addr < ULONG_MOD - 1) :
    pg_state_init.marker = 0 ∧
    (∀ (g2 : Globals) (st2 : pg_state) (out : List Out),
      note_pages c g pg_state_init calls = some (g2, st2, out) →
      st2.marker ≤ calls.length ∧
      st2.marker + 1 < g2.address_markers.length ∧
      (∃ m1, g2.address_markers[st2.marker + 1]? = some m1) ∧
      (∀ (k : Call) (g3 : Globals) (st3 : pg_state) (out3 : List Out),
        k.addr < ULONG_MOD - 1 →
        note_page c g2 st2 k.addr k.level k.val = some (g3, st3, out3) →
        st2.marker ≤ st3.marker ∧ st3.marker ≤ st2.marker + 1 ∧
        st3.marker + 1 < g3.address_markers.length)) ∧
    ((∀ k ∈ calls, k.level < g.pg_level.length) →
      ∃ g2 st2 out, note_pages c g pg_state_init calls = some (g2, st2, out)) := by
  have hlastidx : g.address_markers[g.address_markers.length - 1]? = some sentinel := by
    rw [← List.getLast?_eq_getElem?]; exact hsent
  have hlast : ∀ k ∈ calls, ∀ m,
      g.address_markers[g.address_markers.length - 1]? = some m →
      k.addr < m.start_address := by
    intro k hk m hm
    rw [hlastidx] at hm
    simp only [Option.some.injEq] at hm
    rw [← hm, hmax]
    exact haddr k hk
  have hmk : pg_state_init.marker + 1 < g.address_markers.length := hlen
  refine ⟨rfl, ?_, ?_⟩
  · intro g2 st2 out h
    obtain ⟨e1, _, _, b2, b3⟩ := note_pages_marker c calls g g2 pg_state_init st2 out
      hlast hmk h
    have hzero : pg_state_init.marker = 0 := rfl
    rw [hzero] at b2
    refine ⟨by omega, by rw [e1]; exact b3, ?_, ?_⟩
    · exact ⟨_, List.getElem?_eq_getElem (by rw [e1]; exact b3)⟩
    · intro k g3 st3 out3 hk h3
      have hlast2 : ∀ m, g2.address_markers[g2.address_markers.length - 1]? = some m →
          k.addr < m.start_address := by
        intro m hm
        rw [e1, hlastidx] at hm
        simp only [Option.some.injEq] at hm
        rw [← hm, hmax]
        exact hk
      obtain ⟨f1, _, a1, a2, a3, _⟩ := note_page_marker_step c g2 g3 st2 st3 k.addr k.level
        k.val out3 hlast2 (by rw [e1]; exact b3) h3
      exact ⟨a1, a2, by rw [f1]; exact a3⟩
  · intro hlevels
    exact note_pages_some c calls g pg_state_init hlevels hlast (Or.inl rfl) hmk

/-- Witness of C20: three calls on the markers of `arm_globals`. -/
theorem marker_lookup_in_bounds_witness :
    (1 < (arm_globals 0 1 0 0).address_markers.length ∧
      (arm_globals 0 1 0 0).address_markers.getLast? =
        some { start_address := 0xffffffff, name := none } ∧
      (0xffffffff : Nat) = ULONG_MOD - 1 ∧
      ∀ k ∈ [({ addr := 0, level := 4, val := 0 } : Call),
             { addr := 0xbfe00000, level := 3, val := 0x40e },
             { addr := 0xc0200000, level := 3, val := 0 }], k.addr < ULONG_MOD - 1) ∧
    ∃ g2 st2 out,
      note_pages (arm_consts 0) (arm_globals 0 1 0 0) pg_state_init
        [{ addr := 0, level := 4, val := 0 },
         { addr := 0xbfe00000, level := 3, val := 0x40e },
         { addr := 0xc0200000, level := 3, val := 0 }] = some (g2, st2, out) :=
  ⟨⟨by decide, by rfl, by decide, by decide⟩,
   (marker_lookup_in_bounds (arm_consts 0) (arm_globals 0 1 0 0)
      [{ addr := 0, level := 4, val := 0 },
       { addr := 0xbfe00000, level := 3, val := 0x40e },
       { addr := 0xc0200000, level := 3, val := 0 }]
      { start_address := 0xffffffff, name := none }
      (by decide) (by rfl) (by decide) (by decide)).2.2 (by decide)⟩

/-! ## The silent walk -/

/-- C12 (silent-mode output): for a root table whose walk reads inside its tables and
reports no address equal to the largest `unsigned long`, with the five entries of
`pg_level` and a marker list that ends in the sentinel, `cma_walk_pgd` returns, and its
text is exactly the two summary tokens: the cacheable line with `cache_type / 1024` and
the bufferable line with `buffer_type / 1024`. Nothing is printed by `note_page` or
`dump_prot`. Both totals are the sums accumulated during this walk, and the result
does not depend on the values that the two counters had before. -/
theorem cma_walk_pgd_output (c : Consts) (g : Globals) (dir : List pgd_t)
    (calls : List Call) (sentinel : addr_marker)
    (hwalk : walk_pgd_loop c dir = some calls)
    (hlevels : 5 ≤ g.pg_level.length)
    (hlen : 1 < g.address_markers.length)
    (hsent : g.address_markers.getLast? = some sentinel)
    (hmax : sentinel.start_address = ULONG_MOD - 1)
    (haddr : ∀ k ∈ calls, k.addr < ULONG_MOD - 1) :
    (∃ (g1 : Globals) (st1 : pg_state),
      walk_pgd c { g with temp_flag := 0 } dir = some (g1, st1, []) ∧
      cma_walk_pgd c g dir =
        some (g1, [Out.cacheable (g1.cache_type / 1024),
                   Out.bufferable (g1.buffer_type / 1024)]) ∧
      g1.cache_type =
        inside_total (cache_val c) g.pg_level g.cma_virt_start g.cma_virt_end
          (closed_runs c (walk_pgd_init { g with temp_flag := 0 }) pg_state_init
            (calls ++ [{ addr := 0, level := 0, val := 0 }])) % ULONG_MOD ∧
      g1.buffer_type =
        inside_total (buffer_val c) g.pg_level g.cma_virt_start g.cma_virt_end
          (closed_runs c (walk_pgd_init { g with temp_flag := 0 }) pg_state_init
            (calls ++ [{ addr := 0, level := 0, val := 0 }])) % ULONG_MOD) ∧
    (∀ x y : Nat,
      cma_walk_pgd c { g with cache_type := x, buffer_type := y } dir =
        cma_walk_pgd c g dir) ∧
    (∀ a b : Nat,
      render_all [Out.cacheable a, Out.bufferable b] =
        "Cacheable:\t\t\t\t" ++ fmt_lu a ++ " kB\n" ++
          ("Bufferable:\t\t\t\t" ++ fmt_lu b ++ " kB\n")) := by
  have hlastidx : g.address_markers[g.address_markers.length - 1]? = some sentinel := by
    rw [← List.getLast?_eq_getElem?]; exact hsent
  have hM : ULONG_MOD = 4294967296 := rfl
  have hall : ∀ k ∈ calls ++ [({ addr := 0, level := 0, val := 0 } : Call)],
      k.level < 5 ∧ k.addr < ULONG_MOD - 1 := by
    intro k hk
    rw [List.mem_append, List.mem_singleton] at hk
    rcases hk with hk | hk
    · have hl := walk_pgd_loop_levels c dir calls hwalk k hk
      exact ⟨by omega, haddr k hk⟩
    · rw [hk, hM]
      exact ⟨by decide, by decide⟩
  have hsome := note_pages_some c (calls ++ [{ addr := 0, level := 0, val := 0 }])
    (walk_pgd_init { g with temp_flag := 0 }) pg_state_init
    (fun k hk => by
      have := (hall k hk).1
      show k.level < g.pg_level.length
      omega)
    (fun k hk m hm => by
      have hm2 : g.address_markers[g.address_markers.length - 1]? = some m := hm
      rw [hlastidx] at hm2
      simp only [Option.some.injEq] at hm2
      rw [← hm2, hmax]
      exact (hall k hk).2)
    (Or.inl rfl) hlen
  obtain ⟨g1, st1, out, hrun⟩ := hsome
  have hout : out = [] :=
    note_pages_silent c _ (walk_pgd_init { g with temp_flag := 0 }) g1 pg_state_init st1
      out rfl hrun
  subst hout
  obtain ⟨_, ⟨c1, c2⟩, ⟨b1, b2⟩⟩ :=
    note_pages_counters c _ (walk_pgd_init { g with temp_flag := 0 }) g1 pg_state_init st1
      [] hrun
  have e1 : (walk_pgd_init { g with temp_flag := 0 }).cache_type = 0 := rfl
  have e2 : (walk_pgd_init { g with temp_flag := 0 }).buffer_type = 0 := rfl
  have e3 : (walk_pgd_init { g with temp_flag := 0 }).pg_level = g.pg_level := rfl
  have e4 : (walk_pgd_init { g with temp_flag := 0 }).cma_virt_start = g.cma_virt_start :=
    rfl
  have e5 : (walk_pgd_init { g with temp_flag := 0 }).cma_virt_end = g.cma_virt_end := rfl
  have hc : g1.cache_type < ULONG_MOD := c2 (by rw [e1, hM]; decide)
  have hb : g1.buffer_type < ULONG_MOD := b2 (by rw [e2, hM]; decide)
  rw [e1, e3, e4, e5, Nat.zero_add, Nat.mod_eq_of_lt hc] at c1
  rw [e2, e3, e4, e5, Nat.zero_add, Nat.mod_eq_of_lt hb] at b1
  have hwalkpgd : walk_pgd c { g with temp_flag := 0 } dir = some (g1, st1, []) := by
    simp only [walk_pgd, hwalk]
    exact hrun
  refine ⟨⟨g1, st1, hwalkpgd, ?_, c1, b1⟩, ?_, ?_⟩
  · simp only [cma_walk_pgd, hwalkpgd, SZ_1K]
    rfl
  · intro x y
    rfl
  · intro a b
    rfl

/-- Witness of C12: the silent walk over `small_dir` with the window `[0, 0x4000)`
finds 8 KiB of write-back pages. -/
theorem cma_walk_pgd_output_witness :
    (walk_pgd_loop small_consts small_dir =
        some [{ addr := 0, level := 4, val := 0x140f },
              { addr := 0x1000, level := 4, val := 0x240f },
              { addr := 0x2000, level := 3, val := 0 },
              { addr := 0x4000, level := 1, val := 0 }] ∧
      5 ≤ (arm_globals 0 1 0 0x4000).pg_level.length ∧
      1 < (arm_globals 0 1 0 0x4000).address_markers.length ∧
      (arm_globals 0 1 0 0x4000).address_markers.getLast? =
        some { start_address := 0xffffffff, name := none } ∧
      (0xffffffff : Nat) = ULONG_MOD - 1 ∧
      ∀ k ∈ [({ addr := 0, level := 4, val := 0x140f } : Call),
             { addr := 0x1000, level := 4, val := 0x240f },
             { addr := 0x2000, level := 3, val := 0 },
             { addr := 0x4000, level := 1, val := 0 }], k.addr < ULONG_MOD - 1) ∧
    (cma_walk_pgd small_consts (arm_globals 0 1 0 0x4000) small_dir).map
        (fun r => r.2) = some [Out.cacheable 8, Out.bufferable 0] ∧
    ∀ x y : Nat,
      cma_walk_pgd small_consts
          { arm_globals 0 1 0 0x4000 with cache_type := x, buffer_type := y } small_dir =
        cma_walk_pgd small_consts (arm_globals 0 1 0 0x4000) small_dir :=
  ⟨⟨by rfl, by decide, by decide, by rfl, by decide, by decide⟩, by rfl,
   (cma_walk_pgd_output small_consts (arm_globals 0 1 0 0x4000) small_dir
      [{ addr := 0, level := 4, val := 0x140f },
       { addr := 0x1000, level := 4, val := 0x240f },
       { addr := 0x2000, level := 3, val := 0 },
       { addr := 0x4000, level := 1, val := 0 }]
      { start_address := 0xffffffff, name := none }
      (by rfl) (by decide) (by decide) (by rfl) (by decide) (by decide)).2.1⟩

/-! ## Runs and marker boundaries -/

/-- A run is never continued by a call at or beyond the start address of the
successor of the current marker. For every walk state with an open run and
every call at or above the ceiling: when the address has reached that start address,
the call closes the run there (the range printed for it ends at the address of the
call), the new run starts at the address and the marker advances by one; and whenever
the run start after the call is not the address of the call, the call was absorbed
into the run without output and its address is below that start address. -/
theorem run_closed_at_first_call_beyond_marker (c : Consts) (g : Globals) (st : pg_state)
    (addr level val : Nat) (pl sl : pg_level) (m1 : addr_marker)
    (hopen : st.level ≠ 0) (hceil : c.USER_PGTABLES_CEILING ≤ addr)
    (hpl : g.pg_level[level]? = some pl)
    (hsl : g.pg_level[st.level]? = some sl)
    (hm1 : g.address_markers[st.marker + 1]? = some m1) :
    ∃ (g2 : Globals) (st2 : pg_state) (out : List Out),
      note_page c g st addr level val = some (g2, st2, out) ∧
      (addr ≥ m1.start_address →
        st2.marker = st.marker + 1 ∧ st2.start_address = addr ∧
        range_tokens out =
          if st.current_prot ≠ 0 ∧ g.temp_flag ≠ 0 then
            [Out.range st.start_address addr] else []) ∧
      (st2.start_address ≠ addr →
        addr < m1.start_address ∧ g2 = g ∧ st2 = st ∧ out = []) := by
  by_cases hcond : val &&& pl.mask ≠ st.current_prot ∨ level ≠ st.level ∨
      addr ≥ m1.start_address
  · obtain ⟨g1, line, hline, _, hrt⟩ := close_line_range_tokens c g st addr sl hsl
    have hclose := note_page_close c g st addr level val pl m1 g1 line hopen hceil
      hpl hm1 hcond hline
    refine ⟨g1, _, _, hclose, ?_, fun h => absurd rfl h⟩
    intro hx
    refine ⟨if_pos hx, rfl, ?_⟩
    rw [range_tokens_append, hrt, if_pos hx, range_tokens_print_header, List.append_nil]
  · have hcont := note_page_continue c g st addr level val pl m1 hopen hceil hpl hm1 hcond
    refine ⟨g, st, [], hcont, fun hx => absurd (Or.inr (Or.inr hx)) hcond, ?_⟩
    intro _
    refine ⟨?_, rfl, rfl, rfl⟩
    by_contra hge
    exact hcond (Or.inr (Or.inr (by omega)))

/-- Example: the call at `0xc0200000` on the run opened at `0xbfe00000` closes it
there and moves to the marker `Kernel Mapping`. -/
theorem run_closed_at_first_call_beyond_marker_witness :
    ((3 : Nat) ≠ 0 ∧ (arm_consts 0).USER_PGTABLES_CEILING ≤ 0xc0200000 ∧
      (arm_globals 0 1 0 0).pg_level[3]? =
        some { bits := some (section_bits (arm_consts 0)), mask := 0x10c10 } ∧
      (arm_globals 0 1 0 0).address_markers[0 + 1]? =
        some { start_address := 0xc0000000, name := some "Kernel Mapping" }) ∧
    ∃ (g2 : Globals) (st2 : pg_state) (out : List Out),
      note_page (arm_consts 0) (arm_globals 0 1 0 0)
          { marker := 0, start_address := 0xbfe00000, level := 3, current_prot := 0x400 }
          0xc0200000 3 0 = some (g2, st2, out) ∧
      st2.marker = 1 ∧ st2.start_address = 0xc0200000 ∧
      range_tokens out = [Out.range 0xbfe00000 0xc0200000] := by
  refine ⟨⟨by decide, by decide, by rfl, by rfl⟩, ?_⟩
  obtain ⟨g2, st2, out, h, hx, _⟩ :=
    run_closed_at_first_call_beyond_marker (arm_consts 0) (arm_globals 0 1 0 0)
      { marker := 0, start_address := 0xbfe00000, level := 3, current_prot := 0x400 }
      0xc0200000 3 0 { bits := some (section_bits (arm_consts 0)), mask := 0x10c10 }
      { bits := some (section_bits (arm_consts 0)), mask := 0x10c10 }
      { start_address := 0xc0000000, name := some "Kernel Mapping" }
      (by decide) (by decide) (by rfl) (by rfl) (by rfl)
  obtain ⟨h1, h2, h3⟩ := hx (by decide)
  refine ⟨g2, st2, out, h, h1, h2, ?_⟩
  rw [h3]
  rfl

/-! ## Ranges and the markers that the calls reach -/

/-- C15 (walker classification), evaluated on the code: with the three-level geometry
and the ceiling `0xbf000000`, root slots `0` and `1` empty and any root slots `2` and
`3`. The iteration for the address `0x80000000` of slot `2` makes one call at level 1
with the value of slot `0`, and the iteration for the address `0xc0000000` of slot `3`
one call at level 1 with the value of slot `1`. So the empty slot `0`, whose address is
`0`, is reported with the address `0x80000000`; and slot `2` gets a level 1 call and
is never walked, also when it refers to a table: the walk makes these two calls and no
other. -/
theorem root_slot_reported_at_shifted_address (e2 e3 : pgd_t) :
    pgd_slot lpae_consts
        [{ val := 0, is_none := true, puds := [] },
         { val := 0, is_none := true, puds := [] }, e2, e3] 2 =
      some [{ addr := 0x80000000, level := 1, val := 0 }] ∧
    pgd_slot lpae_consts
        [{ val := 0, is_none := true, puds := [] },
         { val := 0, is_none := true, puds := [] }, e2, e3] 3 =
      some [{ addr := 0xc0000000, level := 1, val := 0 }] ∧
    (walk_pgd_loop lpae_consts
        [{ val := 0, is_none := true, puds := [] },
         { val := 0, is_none := true, puds := [] }, e2, e3]).map
      (List.map Call.addr) = some [0x80000000, 0xc0000000] ∧
    (walk_pgd_loop lpae_consts
        [{ val := 0, is_none := true, puds := [] },
         { val := 0, is_none := true, puds := [] }, e2, e3]).map
      (List.map Call.level) = some [1, 1] ∧
    0 * lpae_consts.PGDIR_SIZE = 0 ∧ 2 * lpae_consts.PGDIR_SIZE = 0x80000000 := by
  refine ⟨by rfl, by rfl, by rfl, by rfl, by decide, by decide⟩

end Dump
